import Mathlib

/-!
Verification development for the FBP scheduler core
(src/scheduler/component/base.py).

The Python harness is shallowly embedded as executable Lean functions over an
explicit process state.  Python dictionaries become association lists, the
per-port round-robin state [count, cardinality] becomes a pair of naturals,
Python exceptions become an explicit error type, and a blocking wait is an
explicit outcome.  The Connection primitive (scheduler.util.plumber and the
multiprocessing pipe) is not part of the given sources, so its recv, poll,
send and close behaviour is modelled from the spec, as flagged below.
-/

namespace SchedulerBase

/-- Python-style values for metadata, config blobs and information packets.
IPs are opaque to the core; we carry this one value type for all of them. -/
inductive PyVal where
  | none
  | bool (b : Bool)
  | nat (n : Nat)
  | str (s : String)
  | dict (entries : List (String × PyVal))
  | list (xs : List PyVal)

instance : Inhabited PyVal := ⟨PyVal.none⟩

/-- Python exceptions reachable in the harness code. -/
inductive PyErr where
  | keyError
  | indexError
  | ioErrorNotReady
  | eofError
  | zeroDivisionError
  | typeError
  | userFault
deriving DecidableEq

/-- Result of one core-API call: a returned value, a raised exception, or a
suspension (a blocking recv with no data, or a wait on an event Latch). -/
inductive StepRes where
  | ok (v : PyVal)
  | err (e : PyErr)
  | blocked

/-- One endpoint of a Connection as seen by this process.
Modelled from the spec: a Connection is a single-producer single-consumer
FIFO with an explicit close bit; buffered IPs stay deliverable after the
sender closes, and a drained closed connection signals EndOfStream. -/
structure Conn where
  buffer : List PyVal
  eosClosed : Bool
  closedByHarness : Bool

instance : Inhabited Conn := ⟨⟨[], false, false⟩⟩

/-- Phase of the harness lifecycle in which an event was emitted
(ghost instrumentation; it does not influence behaviour). -/
inductive Phase where
  | preLogic
  | logic
  | drain
deriving DecidableEq

/-- Record of one internalEvent emission (ghost instrumentation). -/
structure Emission where
  ty : String
  phase : Phase
  blocking : Bool
deriving DecidableEq

/-- The structured log lines the harness emits. -/
inductive LogKind where
  | bginLog
  | sendLog
  | unconnectedSendLog
  | closedSendLog
  | unknownPortLog
  | recvLog
  | connCountLog
  | multiConnWarnLog
  | waitLog
  | connCloseLog
  | endLog
deriving DecidableEq

/-- The mutable state of one process under the harness: the port tables, the
round-robin table (state[set data count]), the received set, the
hasAllInputs flag, and ghost logs of emissions and log lines. -/
structure ProcState where
  name : String
  metadata : List (String × PyVal)
  inports : List (String × List Conn)
  outports : List (String × List Conn)
  corePorts : List (String × List Conn)
  setDataCount : List (String × (Nat × Nat))
  received : List String
  hasAllInputs : Bool
  emissions : List Emission
  logs : List LogKind
  phase : Phase

/-- Dictionary lookup on an association list (Python d[k], first match). -/
def alookup {α : Type} (key : String) : List (String × α) → Option α
  | [] => Option.none
  | (k, v) :: rest => if k = key then Option.some v else alookup key rest

/-- Dictionary update on an association list (Python d[k] = v for a key
already present; a missing key is left untouched by the callers below). -/
def aupdate {α : Type} (key : String) (v : α) : List (String × α) → List (String × α)
  | [] => []
  | (k, x) :: rest =>
    if k = key then (k, v) :: aupdate key v rest else (k, x) :: aupdate key v rest

/-- The key list of an association list (Python d.keys()). -/
def akeys {α : Type} (l : List (String × α)) : List String := l.map Prod.fst

/-- Python set.add on the received set. -/
def addRecv (received : List String) (p : String) : List String :=
  if p ∈ received then received else received ++ [p]

/-- Python set equality: received == set(inports.keys()). -/
def eqSetB (a b : List String) : Bool :=
  a.all (fun x => decide (x ∈ b)) && b.all (fun x => decide (x ∈ a))

def configKey : String := "config"
def blockingKey : String := "blocking"
def eventsKey : String := "events"
def raiKey : String := "ReceivedAllInputs"
def senderKey : String := "sender"
def typeKey : String := "type"
def blockerKey : String := "blocker"
def latchStr : String := "Latch"

/-- Python subscription v[key] on a metadata value: a dict lookup raising
KeyError on a missing key, TypeError on any non-dict (None, int, bool,
string, list). -/
def pySubscript (v : PyVal) (key : String) : Except PyErr PyVal :=
  match v with
  | .dict es =>
    match alookup key es with
    | Option.some x => .ok x
    | Option.none => .error .keyError
  | _ => .error .typeError

/-- Python truthiness of a value (used for the blocking flag). -/
def pyTruthy : PyVal → Bool
  | .none => false
  | .bool b => b
  | .nat n => !(n == 0)
  | .str s => !(s == "")
  | .dict es => !es.isEmpty
  | .list xs => !xs.isEmpty

/-- getConfigFxn: core[metadata].get(config, None). -/
def getConfigFxn (st : ProcState) : Option PyVal :=
  alookup configKey st.metadata

/-- setDataFxn: send an IP on an out-port, round-robin over its connections.
Faithful to the source: the SEND debug line is logged first; the lookups of
state[set data count][port] and outports[port] sit in a try block whose only
handler catches KeyError (logging the unconnected-port line and returning);
the modulus by the cached cardinality raises an uncaught ZeroDivisionError
when the cardinality is zero; the counter is incremented before conn.send,
which runs outside the try block.  conn.send is modelled from the spec:
FIFO append, and a send on a closed connection is logged and dropped. -/
def setDataFxn (outportName : String) (data : PyVal) (st : ProcState) :
    StepRes × ProcState :=
  let st1 := { st with logs := st.logs ++ [.sendLog] }
  match alookup outportName st1.setDataCount with
  | Option.none =>
    (.ok .none, { st1 with logs := st1.logs ++ [.unconnectedSendLog] })
  | Option.some (numSetCalls, numConnections) =>
    if numConnections = 0 then (.err .zeroDivisionError, st1)
    else
      match alookup outportName st1.outports with
      | Option.none =>
        (.ok .none, { st1 with logs := st1.logs ++ [.unconnectedSendLog] })
      | Option.some conns =>
        match conns[numSetCalls % numConnections]? with
        | Option.none => (.err .indexError, st1)
        | Option.some conn =>
          let st2 := { st1 with
            setDataCount :=
              aupdate outportName (numSetCalls + 1, numConnections) st1.setDataCount }
          if conn.eosClosed then
            (.ok .none, { st2 with logs := st2.logs ++ [.closedSendLog] })
          else
            (.ok .none, { st2 with
              outports := aupdate outportName
                (conns.set (numSetCalls % numConnections)
                  { conn with buffer := conn.buffer ++ [data] }) st2.outports })

/-- Does config[blocking][eventType] evaluate to a truthy value?  The two
subscriptions run under handlers for TypeError (config is None or the
blocking entry is not subscriptable by a string) and KeyError (the key is
missing), both of which leave the event non-blocking. -/
def isEventBlockingOf (eventType : String) (st : ProcState) : Bool :=
  match getConfigFxn st with
  | Option.none => false
  | Option.some c =>
    match pySubscript c blockingKey with
    | .error _ => false
    | .ok bm =>
      match pySubscript bm eventType with
      | .error _ => false
      | .ok v => pyTruthy v

/-- The event message: sender and type, plus a blocker Latch iff blocking. -/
def eventValOf (eventType : String) (st : ProcState) : PyVal :=
  .dict (if isEventBlockingOf eventType st then
      [(senderKey, .str st.name), (typeKey, .str eventType)] ++
        [(blockerKey, .str latchStr)]
    else [(senderKey, .str st.name), (typeKey, .str eventType)])

/-- Ghost record of the emission (type, phase, blocking flag). -/
def emitRecorded (eventType : String) (st : ProcState) : ProcState :=
  { st with emissions := st.emissions ++ [⟨eventType, st.phase, isEventBlockingOf eventType st⟩] }

/-- internalEvent: build the event message, decide whether it blocks by
evaluating config[blocking][eventType] under handlers for TypeError and
KeyError, attach a blocker to the message iff blocking, send it on the
events port, and if blocking wait on the Latch (modelled as the blocked
outcome).  The emission is also recorded in the ghost emissions list. -/
def internalEvent (eventType : String) (st : ProcState) : StepRes × ProcState :=
  match setDataFxn eventsKey (eventValOf eventType st) (emitRecorded eventType st) with
  | (.ok _, st2) =>
    if isEventBlockingOf eventType st then (.blocked, st2) else (.ok .none, st2)
  | other => other

/-- checkInputs: when hasAllInputs is still false and the received set equals
the full set of in-port names, emit ReceivedAllInputs and set the flag. -/
def checkInputs (st : ProcState) : StepRes × ProcState :=
  if !st.hasAllInputs && eqSetB st.received (akeys st.inports) then
    match internalEvent raiKey st with
    | (.ok _, st1) => (.ok .none, { st1 with hasAllInputs := true })
    | other => other
  else (.ok .none, st)

/-- getDataAtFxn: receive the next IP from the connIndex-th connection of an
in-port.  Faithful to the source: the lookup inports[name][connIndex] sits in
a try block catching only KeyError (a missing port name), which is logged and
re-raised; an out-of-range index raises an uncaught, unlogged IndexError.
In the non-blocking case conn.poll() is consulted first and an IOError is
raised when it is false.  conn.poll and conn.recv are modelled from the spec:
poll is true iff a buffered IP is available; recv returns the head of the
buffer, signals EndOfStream on a drained closed connection, and suspends on
a drained open one.  On success the RECV line is logged, the port is added
to the received set and checkInputs runs before the IP is returned.
recvUpdate is the post-receive state: buffer advanced, RECV logged, port
recorded in the received set. -/
def recvUpdate (connIndex : Nat) (inportName : String) (conns : List Conn)
    (conn : Conn) (rest : List PyVal) (st : ProcState) : ProcState :=
  { st with
    inports := aupdate inportName
      (conns.set connIndex { conn with buffer := rest }) st.inports,
    logs := st.logs ++ [LogKind.recvLog],
    received := addRecv st.received inportName }

def getDataAtFxn (connIndex : Nat) (inportName : String) (block : Bool)
    (st : ProcState) : StepRes × ProcState :=
  match alookup inportName st.inports with
  | Option.none => (.err .keyError, { st with logs := st.logs ++ [.unknownPortLog] })
  | Option.some conns =>
    match conns[connIndex]? with
    | Option.none => (.err .indexError, st)
    | Option.some conn =>
      if !block && conn.buffer.isEmpty then (.err .ioErrorNotReady, st)
      else
        match conn.buffer with
        | [] => if conn.eosClosed then (.err .eofError, st) else (.blocked, st)
        | data :: rest =>
          match checkInputs (recvUpdate connIndex inportName conns conn rest st) with
          | (.ok _, st3) => (.ok data, st3)
          | other => other

/-- getDataFxn: the single-endpoint convenience.  Faithful to the source: the
connection-count log line evaluates len(inports[name]) first, so a missing
port name raises KeyError before anything is logged; with more than one
connection an extra warning line is logged; then it delegates to
getDataAtFxn with FIRST_CONN = 0. -/
def getDataFxn (inportName : String) (block : Bool) (st : ProcState) :
    StepRes × ProcState :=
  match alookup inportName st.inports with
  | Option.none => (.err .keyError, st)
  | Option.some conns =>
    let st1 := { st with logs := st.logs ++ [.connCountLog] }
    let st2 :=
      if conns.length > 1 then { st1 with logs := st1.logs ++ [.multiConnWarnLog] }
      else st1
    getDataAtFxn 0 inportName block st2

/-- lenAtFxn: number of connections on a named port; KeyError on a missing
name, uncaught. -/
def lenAtFxn (portName : String) (inport : Bool) (st : ProcState) :
    Except PyErr Nat :=
  if inport then
    match alookup portName st.inports with
    | Option.some conns => .ok conns.length
    | Option.none => .error .keyError
  else
    match alookup portName st.outports with
    | Option.some conns => .ok conns.length
    | Option.none => .error .keyError

/-- One call that user logic makes against the core API, or an uncaught
failure inside user logic. -/
inductive LogicStep where
  | getDataAtCall (i : Nat) (port : String) (block : Bool)
  | getDataCall (port : String) (block : Bool)
  | setDataCall (port : String) (data : PyVal)
  | raiseFault

def execStep : LogicStep → ProcState → StepRes × ProcState
  | .getDataAtCall i p b, st => getDataAtFxn i p b st
  | .getDataCall p b, st => getDataFxn p b st
  | .setDataCall p d, st => setDataFxn p d st
  | .raiseFault, st => (.err .userFault, st)

/-- Run the user logic, a straight-line sequence of core-API calls; the first
raised exception or suspension aborts the sequence and propagates. -/
def runLogic : List LogicStep → ProcState → StepRes × ProcState
  | [], st => (.ok .none, st)
  | s :: rest, st =>
    match execStep s st with
    | (.ok _, st1) => runLogic rest st1
    | other => other

/-- The (port name, connection index) pairs the shutdown drain iterates over,
in table order. -/
def pairsOf (st : ProcState) : List (String × Nat) :=
  st.inports.flatMap (fun pr => (List.range pr.2.length).map (fun i => (pr.1, i)))

inductive PassRes where
  | finished (allEof : Bool)
  | passBlocked
  | passFail (e : PyErr)

/-- One pass of the shutdown drain: call getDataAt(i, port) on every pair,
discard returned IPs, record per-call EndOfStream status; only EOFError is
caught, any other exception propagates, and a blocking recv suspends. -/
def drainPassGo : List (String × Nat) → Bool → ProcState → PassRes × ProcState
  | [], acc, st => (.finished acc, st)
  | (p, i) :: rest, acc, st =>
    match getDataAtFxn i p true st with
    | (.ok _, st1) => drainPassGo rest false st1
    | (.err .eofError, st1) => drainPassGo rest acc st1
    | (.err e, st1) => (.passFail e, st1)
    | (.blocked, st1) => (.passBlocked, st1)

inductive DrainRes where
  | done
  | drainBlocked
  | drainFail (e : PyErr)
  | fuelOut

/-- The wait-for-close loop: repeat drain passes until one pass sees
EndOfStream on every input endpoint.  The fuel bounds the number of passes;
the harness supplies enough for the closed-world state it runs on. -/
def drainLoop : Nat → ProcState → DrainRes × ProcState
  | 0, st => (.fuelOut, st)
  | Nat.succ fuel, st =>
    match drainPassGo (pairsOf st) true st with
    | (.finished true, st1) => (.done, st1)
    | (.finished false, st1) => drainLoop fuel st1
    | (.passBlocked, st1) => (.drainBlocked, st1)
    | (.passFail e, st1) => (.drainFail e, st1)

/-- Total number of IPs buffered on the input endpoints. -/
def totalInBuf (st : ProcState) : Nat :=
  st.inports.foldl (fun acc pr => acc + pr.2.foldl (fun a c => a + c.buffer.length) 0) 0

/-- Close every endpoint of a port table (Connection.close is modelled from
the spec as setting the close bit; it is idempotent). -/
def closeTable (t : List (String × List Conn)) : List (String × List Conn) :=
  t.map (fun pr => (pr.1, pr.2.map (fun c => { c with closedByHarness := true })))

/-- On exit the harness closes every connection of inports, outports and
core[ports], logging a CONN line for each. -/
def closeAll (st : ProcState) : ProcState :=
  { st with
    inports := closeTable st.inports,
    outports := closeTable st.outports,
    corePorts := closeTable st.corePorts,
    logs := st.logs ++
      (pairsOf st).map (fun _ => LogKind.connCloseLog) }

/-- The state the harness builds before invoking anything: the round-robin
table initialised to [0, cardinality] per out-port, the received set empty,
hasAllInputs false, the BGIN line logged.  The plugLeak step (closing the
unused halves of the bidirectional pipe pairs) has no observable effect on
this state and is not modelled. -/
def initState (name : String) (metadata : List (String × PyVal))
    (inports outports corePorts : List (String × List Conn)) : ProcState :=
  { name := name
    metadata := metadata
    inports := inports
    outports := outports
    corePorts := corePorts
    setDataCount := outports.map (fun pr => (pr.1, (0, pr.2.length)))
    received := []
    hasAllInputs := false
    emissions := []
    logs := [.bginLog]
    phase := .preLogic }

/-- How one process run ends. -/
inductive Outcome where
  | completed (st : ProcState)
  | raised (e : PyErr) (st : ProcState)
  | blockedRun (st : ProcState)
  | fuelOut (st : ProcState)

/-- fxn: the canonical harness for a generic component.  Build the state,
run the pre-invocation checkInputs, run the user logic, then drain every
input endpoint until all signal EndOfStream, close every connection and
finish.  An exception or suspension anywhere propagates as the outcome and
skips everything after it, exactly as in the source, which installs no
handler around the user logic or the drain (only the per-call EOFError
handler inside the drain). -/
def fxn (name : String) (metadata : List (String × PyVal))
    (inports outports corePorts : List (String × List Conn))
    (logic : List LogicStep) : Outcome :=
  let st0 := initState name metadata inports outports corePorts
  match checkInputs st0 with
  | (.ok _, st1) =>
    match runLogic logic { st1 with phase := .logic } with
    | (.ok _, st2) =>
      let st3 := { st2 with phase := .drain, logs := st2.logs ++ [.waitLog] }
      match drainLoop (totalInBuf st3 + 1) st3 with
      | (.done, st4) =>
        let st5 := closeAll st4
        .completed { st5 with logs := st5.logs ++ [.endLog] }
      | (.drainBlocked, st4) => .blockedRun st4
      | (.drainFail e, st4) => .raised e st4
      | (.fuelOut, st4) => .fuelOut st4
    | (.err e, st2) => .raised e st2
    | (.blocked, st2) => .blockedRun st2
  | (.err e, st1) => .raised e st1
  | (.blocked, st1) => .blockedRun st1

/-- The final state carried by an outcome. -/
def resultState : Outcome → ProcState
  | .completed st => st
  | .raised _ st => st
  | .blockedRun st => st
  | .fuelOut st => st

def isCompleted : Outcome → Bool
  | .completed _ => true
  | _ => false

def isRaised : Outcome → Bool
  | .raised _ _ => true
  | _ => false

/-- Number of ReceivedAllInputs emissions recorded in a state. -/
def raiCount (st : ProcState) : Nat :=
  st.emissions.countP (fun e => e.ty == raiKey)

/-! ### Concrete names and connection builders used by witnesses -/

def pName : String := "P"
def outPortName : String := "out"
def inPortName : String := "in"
def haltKey : String := "Halt"

/-- An endpoint whose sender is still open. -/
def openConn (buf : List PyVal) : Conn := ⟨buf, false, false⟩

/-- An endpoint whose sender has closed (EndOfStream after the buffer). -/
def eosConn (buf : List PyVal) : Conn := ⟨buf, true, false⟩

/-! ### Association-list and list helper lemmas -/

theorem alookup_aupdate_self {α : Type} (k : String) (v : α) (l : List (String × α)) :
    alookup k (aupdate k v l) = (alookup k l).map (fun _ => v) := by
  induction l with
  | nil => rfl
  | cons hd tl ih =>
    obtain ⟨k1, x⟩ := hd
    by_cases h : k1 = k
    · simp [aupdate, alookup, h]
    · simp [aupdate, alookup, h, ih]

theorem alookup_aupdate_ne {α : Type} {k k2 : String} (v : α) (l : List (String × α))
    (h : k ≠ k2) : alookup k2 (aupdate k v l) = alookup k2 l := by
  induction l with
  | nil => rfl
  | cons hd tl ih =>
    obtain ⟨k1, x⟩ := hd
    by_cases h1 : k1 = k
    · subst h1
      simp [aupdate, alookup, h, ih]
    · by_cases h2 : k1 = k2 <;>
        simp [aupdate, alookup, h1, h2, ih, Ne.symm h]

theorem akeys_aupdate {α : Type} (k : String) (v : α) (l : List (String × α)) :
    akeys (aupdate k v l) = akeys l := by
  induction l with
  | nil => rfl
  | cons hd tl ih =>
    obtain ⟨k1, x⟩ := hd
    by_cases h : k1 = k <;> simp [aupdate, akeys, h] <;> simpa [akeys] using ih

theorem alookup_mem_akeys {α : Type} {k : String} {l : List (String × α)} {v : α}
    (h : alookup k l = Option.some v) : k ∈ akeys l := by
  induction l with
  | nil => simp [alookup] at h
  | cons hd tl ih =>
    obtain ⟨k1, x⟩ := hd
    by_cases h1 : k1 = k
    · subst h1; simp [akeys]
    · simp only [alookup, h1, if_false] at h
      have hmem := ih h
      simp only [akeys, List.map_cons, List.mem_cons]
      exact Or.inr (by simpa [akeys] using hmem)

theorem eqSetB_true_iff (a b : List String) :
    eqSetB a b = true ↔ (∀ x ∈ a, x ∈ b) ∧ (∀ x ∈ b, x ∈ a) := by
  simp [eqSetB, List.all_eq_true]

/-! ### Claim C1: setData on a port with no connections -/

/-- Claim C1, counterexample.  The claim says a setData call on an output
port whose connection list is empty is a logged no-op with no error raised.
On the code, a port that is present in the output table with an empty
connection list gets a round-robin entry [0, 0], and the modulus by the
cached cardinality raises an uncaught ZeroDivisionError. -/
theorem C1_counterexample :
    (setDataFxn outPortName (PyVal.nat 7)
      (initState pName [] [] [(outPortName, [])] [])).1
      = StepRes.err PyErr.zeroDivisionError := by rfl

/-- Claim C1, amended.  The logged no-op branch of setData fires exactly when
the port name is absent from the round-robin table (the KeyError handler):
the call returns None, the IP is dropped, and the SEND and unconnected-port
lines are logged.  A port that is present with zero connections instead
raises an uncaught ZeroDivisionError, with only the SEND line logged and the
state otherwise untouched. -/
theorem C1_amended (st : ProcState) (p : String) (d : PyVal) :
    (alookup p st.setDataCount = Option.none →
      setDataFxn p d st =
        (StepRes.ok PyVal.none,
         { st with logs := st.logs ++ [LogKind.sendLog, LogKind.unconnectedSendLog] }))
    ∧ (∀ c, alookup p st.setDataCount = Option.some (c, 0) →
        setDataFxn p d st =
          (StepRes.err PyErr.zeroDivisionError,
           { st with logs := st.logs ++ [LogKind.sendLog] })) := by
  constructor
  · intro h
    simp [setDataFxn, h]
  · intro c h
    simp [setDataFxn, h]

/-- Witness for C1_amended at concrete inputs: a port name absent from the
output table is a logged no-op returning None; a port present with an empty
connection list raises ZeroDivisionError. -/
theorem C1_witness :
    (setDataFxn outPortName (PyVal.nat 7) (initState pName [] [] [] [])).1
      = StepRes.ok PyVal.none
    ∧ (setDataFxn outPortName (PyVal.nat 7)
        (initState pName [] [] [(outPortName, [])] [])).1
      = StepRes.err PyErr.zeroDivisionError := by
  constructor
  · have h := (C1_amended (initState pName [] [] [] []) outPortName (PyVal.nat 7)).1
      (by rfl)
    rw [h]
  · have h := (C1_amended (initState pName [] [] [(outPortName, [])] [])
      outPortName (PyVal.nat 7)).2 0 (by rfl)
    rw [h]

/-! ### Claims C7 and C9: getDataAt error behaviour -/

theorem setDataFxn_no_keyError (p : String) (d : PyVal) (st : ProcState) :
    (setDataFxn p d st).1 ≠ StepRes.err PyErr.keyError := by
  simp only [setDataFxn]
  split
  · simp
  · split
    · simp
    · split
      · simp
      · split
        · simp
        · split <;> simp

theorem internalEvent_no_keyError (ty : String) (st : ProcState) :
    (internalEvent ty st).1 ≠ StepRes.err PyErr.keyError := by
  have hne := setDataFxn_no_keyError eventsKey (eventValOf ty st) (emitRecorded ty st)
  rcases h : setDataFxn eventsKey (eventValOf ty st) (emitRecorded ty st) with ⟨r, s⟩
  rw [h] at hne
  cases r with
  | ok v =>
    simp only [internalEvent, h]
    split <;> simp
  | err e =>
    simp only [internalEvent, h]
    simpa using hne
  | blocked =>
    simp [internalEvent, h]

theorem checkInputs_no_keyError (st : ProcState) :
    (checkInputs st).1 ≠ StepRes.err PyErr.keyError := by
  simp only [checkInputs]
  split
  · have hne := internalEvent_no_keyError raiKey st
    rcases h : internalEvent raiKey st with ⟨r, s⟩
    rw [h] at hne
    cases r with
    | ok v => simp
    | err e => simpa using hne
    | blocked => simp
  · simp

/-- Claim C9.  For a port name that is present in the input table, an
out-of-range connection index makes getDataAt raise IndexError: the
exception is not the logged-and-reraised KeyError branch, no log line is
written, and the state is untouched.  Moreover a present port never produces
a KeyError at all, so the UnknownPort branch fires only for a missing name. -/
theorem C9_indexError (st : ProcState) (i : Nat) (p : String) (b : Bool) :
    (∀ conns, alookup p st.inports = Option.some conns → conns.length ≤ i →
      getDataAtFxn i p b st = (StepRes.err PyErr.indexError, st))
    ∧ (∀ conns, alookup p st.inports = Option.some conns →
      (getDataAtFxn i p b st).1 ≠ StepRes.err PyErr.keyError) := by
  constructor
  · intro conns h1 h2
    have hget : conns[i]? = Option.none := List.getElem?_eq_none h2
    simp [getDataAtFxn, h1, hget]
  · intro conns h1
    rcases hget : conns[i]? with _ | conn
    · simp [getDataAtFxn, h1, hget]
    · obtain ⟨buf, eos, closed⟩ := conn
      rcases buf with _ | ⟨d, rest⟩
      · simp only [getDataAtFxn, h1, hget]
        split
        · simp
        · split <;> simp
      · simp only [getDataAtFxn, h1, hget]
        split
        · simp
        · have hne := checkInputs_no_keyError
            (recvUpdate i p conns ⟨d :: rest, eos, closed⟩ rest st)
          rcases h2 : checkInputs (recvUpdate i p conns ⟨d :: rest, eos, closed⟩ rest st)
            with ⟨r, s⟩
          rw [h2] at hne
          cases r with
          | ok v => simp [h2]
          | err e => simpa [h2] using hne
          | blocked => simp [h2]

/-- Witness for C9_indexError: a one-connection port read at index 1 raises
IndexError with the state unchanged. -/
theorem C9_witness :
    getDataAtFxn 1 inPortName true
      (initState pName [] [(inPortName, [openConn []])] [] [])
      = (StepRes.err PyErr.indexError,
         initState pName [] [(inPortName, [openConn []])] [] []) := by
  exact (C9_indexError (initState pName [] [(inPortName, [openConn []])] [] [])
    1 inPortName true).1 [openConn []] (by rfl) (by decide)

/-- Claim C7.  getDataAt on a missing port name raises KeyError after logging
the unknown-port line; on a present port in non-blocking mode with no
buffered IP it raises IOError immediately with the state untouched (nothing
consumed); and when an IP is buffered it returns it, consuming it from the
connection, logging the RECV line and recording the port in the received set
(stated here for a process whose hasAllInputs flag is already set, so that
the post-receive checkInputs is a no-op; the event-emission path is covered
by the ReceivedAllInputs claims). -/
theorem C7_getDataAt (st : ProcState) (i : Nat) (p : String) (b : Bool) :
    (alookup p st.inports = Option.none →
      getDataAtFxn i p b st =
        (StepRes.err PyErr.keyError,
         { st with logs := st.logs ++ [LogKind.unknownPortLog] }))
    ∧ (∀ conns conn, alookup p st.inports = Option.some conns →
        conns[i]? = Option.some conn → b = false → conn.buffer = [] →
        getDataAtFxn i p b st = (StepRes.err PyErr.ioErrorNotReady, st))
    ∧ (∀ conns conn d rest, alookup p st.inports = Option.some conns →
        conns[i]? = Option.some conn → conn.buffer = d :: rest →
        st.hasAllInputs = true →
        getDataAtFxn i p b st =
          (StepRes.ok d, recvUpdate i p conns conn rest st)) := by
  refine ⟨?_, ?_, ?_⟩
  · intro h
    simp [getDataAtFxn, h]
  · intro conns conn h1 h2 hb hbuf
    obtain ⟨buf, eos, closed⟩ := conn
    dsimp only at hbuf
    subst hbuf
    subst hb
    simp [getDataAtFxn, h1, h2]
  · intro conns conn d rest h1 h2 hbuf hall
    obtain ⟨buf, eos, closed⟩ := conn
    dsimp only at hbuf
    subst hbuf
    simp [getDataAtFxn, h1, h2, checkInputs, recvUpdate, hall]

/-- Witness for C7_getDataAt: the three branches at concrete states — a
missing port name, a non-blocking read of an empty connection, and a
successful read of a buffered IP. -/
theorem C7_witness :
    (getDataAtFxn 0 inPortName true (initState pName [] [] [] [])).1
      = StepRes.err PyErr.keyError
    ∧ (getDataAtFxn 0 inPortName false
        (initState pName [] [(inPortName, [openConn []])] [] [])).1
      = StepRes.err PyErr.ioErrorNotReady
    ∧ (getDataAtFxn 0 inPortName true
        { initState pName [] [(inPortName, [openConn [PyVal.nat 3]])] [] [] with
          hasAllInputs := true }).1
      = StepRes.ok (PyVal.nat 3) := by
  refine ⟨?_, ?_, ?_⟩
  · have h := (C7_getDataAt (initState pName [] [] [] []) 0 inPortName true).1 (by rfl)
    rw [h]
  · have h := (C7_getDataAt (initState pName [] [(inPortName, [openConn []])] [] [])
      0 inPortName false).2.1 [openConn []] (openConn []) (by rfl) (by rfl) (by rfl) (by rfl)
    rw [h]
  · have h := (C7_getDataAt
      { initState pName [] [(inPortName, [openConn [PyVal.nat 3]])] [] [] with
        hasAllInputs := true } 0 inPortName true).2.2
      [openConn [PyVal.nat 3]] (openConn [PyVal.nat 3]) (PyVal.nat 3) []
      (by rfl) (by rfl) (by rfl) (by rfl)
    rw [h]

/-! ### Claim C8: getData is getDataAt at index 0

The two calls differ only in their log lines, so we compare results and the
state with the log field erased, and separately show the log behaviour. -/

/-- Everything in a process state except the log lines. -/
def nonLog (st : ProcState) :=
  (st.name, st.metadata, st.inports, st.outports, st.corePorts,
   st.setDataCount, st.received, st.hasAllInputs, st.emissions, st.phase)

theorem setDataFxn_logBlind (p : String) (d : PyVal) (st : ProcState) (L : List LogKind) :
    (setDataFxn p d { st with logs := L }).1 = (setDataFxn p d st).1
    ∧ nonLog (setDataFxn p d { st with logs := L }).2 = nonLog (setDataFxn p d st).2 := by
  simp only [setDataFxn]
  rcases h1 : alookup p st.setDataCount with _ | ⟨c, k⟩
  · simp [h1, nonLog]
  · by_cases hk : k = 0
    · simp [h1, hk, nonLog]
    · rcases h2 : alookup p st.outports with _ | conns
      · simp [h1, h2, hk, nonLog]
      · rcases h3 : conns[c % k]? with _ | conn
        · simp [h1, h2, h3, hk, nonLog]
        · by_cases hc : conn.eosClosed <;> simp [h1, h2, h3, hk, hc, nonLog]

theorem eventValOf_logs (ty : String) (st : ProcState) (L : List LogKind) :
    eventValOf ty { st with logs := L } = eventValOf ty st := rfl

theorem emitRecorded_logs (ty : String) (st : ProcState) (L : List LogKind) :
    emitRecorded ty { st with logs := L } = { emitRecorded ty st with logs := L } := rfl

theorem isEventBlockingOf_logs (ty : String) (st : ProcState) (L : List LogKind) :
    isEventBlockingOf ty { st with logs := L } = isEventBlockingOf ty st := rfl

theorem internalEvent_logBlind (ty : String) (st : ProcState) (L : List LogKind) :
    (internalEvent ty { st with logs := L }).1 = (internalEvent ty st).1
    ∧ nonLog (internalEvent ty { st with logs := L }).2 = nonLog (internalEvent ty st).2 := by
  have hb := setDataFxn_logBlind eventsKey (eventValOf ty st) (emitRecorded ty st) L
  rcases h1 : setDataFxn eventsKey (eventValOf ty st) { emitRecorded ty st with logs := L }
    with ⟨r1, s1⟩
  rcases h2 : setDataFxn eventsKey (eventValOf ty st) (emitRecorded ty st) with ⟨r2, s2⟩
  rw [h1, h2] at hb
  obtain ⟨hr, hs⟩ := hb
  simp only at hr hs
  subst hr
  simp only [internalEvent, eventValOf_logs, emitRecorded_logs, isEventBlockingOf_logs, h1, h2]
  cases r1 with
  | ok v => by_cases hB : isEventBlockingOf ty st = true <;> simp [hB, hs]
  | err e => simp [hs]
  | blocked => simp [hs]

theorem checkInputs_logBlind (st : ProcState) (L : List LogKind) :
    (checkInputs { st with logs := L }).1 = (checkInputs st).1
    ∧ nonLog (checkInputs { st with logs := L }).2 = nonLog (checkInputs st).2 := by
  have hb := internalEvent_logBlind raiKey st L
  simp only [checkInputs]
  by_cases hcond : (!st.hasAllInputs && eqSetB st.received (akeys st.inports)) = true
  · rcases h1 : internalEvent raiKey { st with logs := L } with ⟨r1, s1⟩
    rcases h2 : internalEvent raiKey st with ⟨r2, s2⟩
    rw [h1, h2] at hb
    obtain ⟨hr, hs⟩ := hb
    simp only at hr hs
    subst hr
    simp only [hcond, if_true, h1, h2]
    cases r1 with
    | ok v =>
      refine ⟨rfl, ?_⟩
      simp only [nonLog, Prod.mk.injEq] at hs ⊢
      simp_all
    | err e => exact ⟨rfl, hs⟩
    | blocked => exact ⟨rfl, hs⟩
  · simp [hcond, nonLog]

theorem recvUpdate_logs (i : Nat) (p : String) (conns : List Conn) (conn : Conn)
    (rest : List PyVal) (st : ProcState) (L : List LogKind) :
    recvUpdate i p conns conn rest { st with logs := L }
      = { recvUpdate i p conns conn rest st with logs := L ++ [LogKind.recvLog] } := rfl

theorem getDataAtFxn_logBlind (i : Nat) (p : String) (b : Bool) (st : ProcState)
    (L : List LogKind) :
    (getDataAtFxn i p b { st with logs := L }).1 = (getDataAtFxn i p b st).1
    ∧ nonLog (getDataAtFxn i p b { st with logs := L }).2
      = nonLog (getDataAtFxn i p b st).2 := by
  simp only [getDataAtFxn]
  rcases h1 : alookup p st.inports with _ | conns
  · simp [h1, nonLog]
  · rcases h2 : conns[i]? with _ | conn
    · simp [h1, h2, nonLog]
    · obtain ⟨buf, eos, closed⟩ := conn
      rcases buf with _ | ⟨d, rest⟩
      · simp only [h1, h2]
        constructor
        · split
          · simp
          · split <;> simp
        · split
          · simp [nonLog]
          · split <;> simp [nonLog]
      · have hb := checkInputs_logBlind (recvUpdate i p conns ⟨d :: rest, eos, closed⟩ rest st)
          (L ++ [LogKind.recvLog])
        rcases h3 : checkInputs { recvUpdate i p conns ⟨d :: rest, eos, closed⟩ rest st with
          logs := L ++ [LogKind.recvLog] } with ⟨r1, s1⟩
        rcases h4 : checkInputs (recvUpdate i p conns ⟨d :: rest, eos, closed⟩ rest st)
          with ⟨r2, s2⟩
        rw [h3, h4] at hb
        obtain ⟨hr, hs⟩ := hb
        simp only at hr hs
        subst hr
        simp only [h1, h2, recvUpdate_logs, h3, h4]
        cases r1 with
        | ok v => simp [hs]
        | err e => simp [hs]
        | blocked => simp [hs]

theorem setDataFxn_logMono (p : String) (d : PyVal) (st : ProcState) :
    ∃ t, (setDataFxn p d st).2.logs = st.logs ++ t := by
  simp only [setDataFxn]
  rcases h1 : alookup p st.setDataCount with _ | ⟨c, k⟩
  · exact ⟨[LogKind.sendLog, LogKind.unconnectedSendLog], by simp [h1]⟩
  · by_cases hk : k = 0
    · exact ⟨[LogKind.sendLog], by simp [h1, hk]⟩
    · rcases h2 : alookup p st.outports with _ | conns
      · exact ⟨[LogKind.sendLog, LogKind.unconnectedSendLog], by simp [h1, h2, hk]⟩
      · rcases h3 : conns[c % k]? with _ | conn
        · exact ⟨[LogKind.sendLog], by simp [h1, h2, h3, hk]⟩
        · by_cases hc : conn.eosClosed
          · exact ⟨[LogKind.sendLog, LogKind.closedSendLog], by simp [h1, h2, h3, hk, hc]⟩
          · exact ⟨[LogKind.sendLog], by simp [h1, h2, h3, hk, hc]⟩

theorem internalEvent_logMono (ty : String) (st : ProcState) :
    ∃ t, (internalEvent ty st).2.logs = st.logs ++ t := by
  have hm := setDataFxn_logMono eventsKey (eventValOf ty st) (emitRecorded ty st)
  rcases h1 : setDataFxn eventsKey (eventValOf ty st) (emitRecorded ty st) with ⟨r, s⟩
  rw [h1] at hm
  obtain ⟨t, ht⟩ := hm
  have ht2 : s.logs = st.logs ++ t := by simpa [emitRecorded] using ht
  simp only [internalEvent, h1]
  cases r with
  | ok v =>
    refine ⟨t, ?_⟩
    by_cases hB : isEventBlockingOf ty st = true <;> simp [hB, ht2]
  | err e => exact ⟨t, by simpa using ht2⟩
  | blocked => exact ⟨t, by simpa using ht2⟩

theorem checkInputs_logMono (st : ProcState) :
    ∃ t, (checkInputs st).2.logs = st.logs ++ t := by
  simp only [checkInputs]
  split
  · have hm := internalEvent_logMono raiKey st
    rcases h1 : internalEvent raiKey st with ⟨r, s⟩
    rw [h1] at hm
    obtain ⟨t, ht⟩ := hm
    cases r with
    | ok v => exact ⟨t, by simpa using ht⟩
    | err e => exact ⟨t, by simpa using ht⟩
    | blocked => exact ⟨t, by simpa using ht⟩
  · exact ⟨[], by simp⟩

theorem getDataAtFxn_logMono (i : Nat) (p : String) (b : Bool) (st : ProcState) :
    ∃ t, (getDataAtFxn i p b st).2.logs = st.logs ++ t := by
  simp only [getDataAtFxn]
  rcases h1 : alookup p st.inports with _ | conns
  · exact ⟨[LogKind.unknownPortLog], by simp [h1]⟩
  · rcases h2 : conns[i]? with _ | conn
    · exact ⟨[], by simp [h1, h2]⟩
    · obtain ⟨buf, eos, closed⟩ := conn
      rcases buf with _ | ⟨d, rest⟩
      · refine ⟨[], ?_⟩
        simp only [h1, h2]
        split
        · simp
        · split <;> simp
      · have hm := checkInputs_logMono (recvUpdate i p conns ⟨d :: rest, eos, closed⟩ rest st)
        rcases h3 : checkInputs (recvUpdate i p conns ⟨d :: rest, eos, closed⟩ rest st)
          with ⟨r, s⟩
        rw [h3] at hm
        obtain ⟨t, ht⟩ := hm
        have ht2 : s.logs = st.logs ++ ([LogKind.recvLog] ++ t) := by
          simpa [recvUpdate] using ht
        simp only [h1, h2, h3]
        cases r with
        | ok v => exact ⟨[LogKind.recvLog] ++ t, by simpa using ht2⟩
        | err e => exact ⟨[LogKind.recvLog] ++ t, by simpa using ht2⟩
        | blocked => exact ⟨[LogKind.recvLog] ++ t, by simpa using ht2⟩

/-- Claim C8.  For every input port name and block flag, getData returns or
raises exactly what getDataAt at index 0 returns or raises, and leaves the
same state apart from log lines; it reads only endpoint 0 and never merges
across endpoints.  When the port is present with more than one connection,
the extra warning line appears in the log. -/
theorem C8_getData_equiv (p : String) (b : Bool) (st : ProcState) :
    (getDataFxn p b st).1 = (getDataAtFxn 0 p b st).1
    ∧ nonLog (getDataFxn p b st).2 = nonLog (getDataAtFxn 0 p b st).2
    ∧ (∀ conns, alookup p st.inports = Option.some conns → 1 < conns.length →
        LogKind.multiConnWarnLog ∈ (getDataFxn p b st).2.logs) := by
  refine ⟨?_, ?_, ?_⟩
  · rcases h1 : alookup p st.inports with _ | conns
    · simp [getDataFxn, getDataAtFxn, h1]
    · simp only [getDataFxn, h1]
      split
      · exact (getDataAtFxn_logBlind 0 p b st
          (st.logs ++ [LogKind.connCountLog] ++ [LogKind.multiConnWarnLog])).1
      · exact (getDataAtFxn_logBlind 0 p b st (st.logs ++ [LogKind.connCountLog])).1
  · rcases h1 : alookup p st.inports with _ | conns
    · simp [getDataFxn, getDataAtFxn, h1, nonLog]
    · simp only [getDataFxn, h1]
      split
      · exact (getDataAtFxn_logBlind 0 p b st
          (st.logs ++ [LogKind.connCountLog] ++ [LogKind.multiConnWarnLog])).2
      · exact (getDataAtFxn_logBlind 0 p b st (st.logs ++ [LogKind.connCountLog])).2
  · intro conns h1 hlen
    simp only [getDataFxn, h1, hlen, if_pos]
    have hm := getDataAtFxn_logMono 0 p b
      { st with logs := st.logs ++ [LogKind.connCountLog] ++ [LogKind.multiConnWarnLog] }
    obtain ⟨t, ht⟩ := hm
    rw [ht]
    simp

/-- Witness for C8_getData_equiv at a concrete two-connection port: the same
IP comes back from both calls, the non-log state agrees, and the warning
line is logged. -/
theorem C8_witness :
    ((getDataFxn inPortName true
        { initState pName []
            [(inPortName, [openConn [PyVal.nat 1], openConn [PyVal.nat 2]])] [] [] with
          hasAllInputs := true }).1
      = (getDataAtFxn 0 inPortName true
        { initState pName []
            [(inPortName, [openConn [PyVal.nat 1], openConn [PyVal.nat 2]])] [] [] with
          hasAllInputs := true }).1)
    ∧ LogKind.multiConnWarnLog ∈ (getDataFxn inPortName true
        { initState pName []
            [(inPortName, [openConn [PyVal.nat 1], openConn [PyVal.nat 2]])] [] [] with
          hasAllInputs := true }).2.logs := by
  constructor
  · exact (C8_getData_equiv inPortName true
      { initState pName []
          [(inPortName, [openConn [PyVal.nat 1], openConn [PyVal.nat 2]])] [] [] with
        hasAllInputs := true }).1
  · exact (C8_getData_equiv inPortName true
      { initState pName []
          [(inPortName, [openConn [PyVal.nat 1], openConn [PyVal.nat 2]])] [] [] with
        hasAllInputs := true }).2.2
      [openConn [PyVal.nat 1], openConn [PyVal.nat 2]] (by rfl) (by decide)

/-! ### Claim C6: blocking events -/

/-- Claim C6.  When internalEvent emits an event whose type is marked
blocking (a truthy value under config[blocking][eventType]), the event is
sent with a blocker attached and the emitter suspends after the send; when
the config is absent (None), the blocking entry is missing or malformed
(TypeError or KeyError from either subscription), or the type maps to a
falsy value, the event is sent without a blocker and the emitter does not
suspend.  Stated for a process whose events port has one open connection:
the call returns blocked iff the type is blocking, the emission record
carries the same flag, the sent message lands on the events connection, and
the message carries the blocker field iff the type is blocking. -/
theorem C6_blockingEvents (st : ProcState) (ty : String) (cnt : Nat) (conn : Conn)
    (hsd : alookup eventsKey st.setDataCount = Option.some (cnt, 1))
    (hop : alookup eventsKey st.outports = Option.some [conn])
    (hcl : conn.eosClosed = false) :
    ((internalEvent ty st).1 =
      (if isEventBlockingOf ty st then StepRes.blocked else StepRes.ok PyVal.none))
    ∧ (internalEvent ty st).2.emissions
        = st.emissions ++ [⟨ty, st.phase, isEventBlockingOf ty st⟩]
    ∧ alookup eventsKey (internalEvent ty st).2.outports
        = Option.some [{ conn with buffer := conn.buffer ++ [eventValOf ty st] }]
    ∧ (eventValOf ty st =
        PyVal.dict (if isEventBlockingOf ty st then
            [(senderKey, PyVal.str st.name), (typeKey, PyVal.str ty)] ++
              [(blockerKey, PyVal.str latchStr)]
          else [(senderKey, PyVal.str st.name), (typeKey, PyVal.str ty)]))
    ∧ (getConfigFxn st = Option.none → isEventBlockingOf ty st = false)
    ∧ (∀ cv e, getConfigFxn st = Option.some cv →
        pySubscript cv blockingKey = Except.error e → isEventBlockingOf ty st = false)
    ∧ (∀ cv bm e, getConfigFxn st = Option.some cv →
        pySubscript cv blockingKey = Except.ok bm →
        pySubscript bm ty = Except.error e → isEventBlockingOf ty st = false)
    ∧ (∀ cv bm v, getConfigFxn st = Option.some cv →
        pySubscript cv blockingKey = Except.ok bm →
        pySubscript bm ty = Except.ok v → isEventBlockingOf ty st = pyTruthy v) := by
  have hsend : setDataFxn eventsKey (eventValOf ty st) (emitRecorded ty st)
      = (StepRes.ok PyVal.none,
         { st with
            emissions := st.emissions ++ [⟨ty, st.phase, isEventBlockingOf ty st⟩],
            logs := st.logs ++ [LogKind.sendLog],
            setDataCount := aupdate eventsKey (cnt + 1, 1) st.setDataCount,
            outports := aupdate eventsKey
              [{ conn with buffer := conn.buffer ++ [eventValOf ty st] }] st.outports }) := by
    simp [setDataFxn, emitRecorded, hsd, hop, hcl, Nat.mod_one]
  refine ⟨?_, ?_, ?_, rfl, ?_, ?_, ?_, ?_⟩
  · simp only [internalEvent, hsend]
    by_cases hB : isEventBlockingOf ty st = true <;> simp [hB]
  · simp only [internalEvent, hsend]
    by_cases hB : isEventBlockingOf ty st = true <;> simp [hB]
  · simp only [internalEvent, hsend]
    by_cases hB : isEventBlockingOf ty st = true <;>
      simp [hB, alookup_aupdate_self, hop]
  · intro h
    simp [isEventBlockingOf, h]
  · intro cv e h1 h2
    simp [isEventBlockingOf, h1, h2]
  · intro cv bm e h1 h2 h3
    simp [isEventBlockingOf, h1, h2, h3]
  · intro cv bm v h1 h2 h3
    simp [isEventBlockingOf, h1, h2, h3]

/-- Witness for C6_blockingEvents: with config blocking Halt true the emitter
suspends (blocked); with a malformed blocking entry (an int) the same event
is sent without suspension. -/
theorem C6_witness :
    (internalEvent haltKey
      { initState pName
          [(configKey, PyVal.dict [(blockingKey, PyVal.dict [(haltKey, PyVal.bool true)])])]
          [] [(eventsKey, [openConn []])] [] with phase := Phase.logic }).1
      = StepRes.blocked
    ∧ (internalEvent haltKey
      { initState pName
          [(configKey, PyVal.dict [(blockingKey, PyVal.nat 3)])]
          [] [(eventsKey, [openConn []])] [] with phase := Phase.logic }).1
      = StepRes.ok PyVal.none := by
  constructor
  · have h := (C6_blockingEvents
      { initState pName
          [(configKey, PyVal.dict [(blockingKey, PyVal.dict [(haltKey, PyVal.bool true)])])]
          [] [(eventsKey, [openConn []])] [] with phase := Phase.logic }
      haltKey 0 (openConn []) (by rfl) (by rfl) (by rfl)).1
    rw [h]
    rfl
  · have h := (C6_blockingEvents
      { initState pName
          [(configKey, PyVal.dict [(blockingKey, PyVal.nat 3)])]
          [] [(eventsKey, [openConn []])] [] with phase := Phase.logic }
      haltKey 0 (openConn []) (by rfl) (by rfl) (by rfl)).1
    rw [h]
    rfl

/-! ### Claim C3: round-robin distribution over an output port -/

/-- The sublist of ips that round-robin routing delivers to endpoint j when
the per-port counter starts at c and the port has k connections. -/
def routeTo (c j k : Nat) : List PyVal → List PyVal
  | [] => []
  | ip :: rest =>
    if c % k = j then ip :: routeTo (c + 1) j k rest else routeTo (c + 1) j k rest

theorem routeTo_append (j k : Nat) (l : List PyVal) (x : PyVal) :
    ∀ c, routeTo c j k (l ++ [x]) =
      routeTo c j k l ++ (if (c + l.length) % k = j then [x] else []) := by
  induction l with
  | nil => intro c; simp [routeTo]
  | cons hd tl ih =>
    intro c
    have harith : c + 1 + tl.length = c + (tl.length + 1) := by omega
    by_cases h : c % k = j <;>
      simp [routeTo, h, ih (c + 1), harith]

theorem mod_eq_iff_dvd_of_lt {j k : Nat} (n : Nat) (hj : j < k) :
    (j + n) % k = j ↔ k ∣ n := by
  constructor
  · intro h
    have h2 : j + n ≡ j + 0 [MOD k] := by
      unfold Nat.ModEq
      simpa [Nat.mod_eq_of_lt hj] using h
    have h3 : n ≡ 0 [MOD k] := Nat.ModEq.add_left_cancel' j h2
    exact (Nat.modEq_zero_iff_dvd).mp h3
  · intro h
    obtain ⟨q, rfl⟩ := h
    rw [Nat.add_mul_mod_self_left]
    exact Nat.mod_eq_of_lt hj

theorem ceil_step (j k m : Nat) (hj : j < k) :
    (m + 1 - j + k - 1) / k = (m - j + k - 1) / k + (if m % k = j then 1 else 0) := by
  have hk : 0 < k := Nat.lt_of_le_of_lt (Nat.zero_le j) hj
  rcases Nat.lt_or_ge m j with hlt | hge
  · have h1 : m + 1 - j = 0 := by omega
    have h2 : m - j = 0 := by omega
    have h3 : m % k = m := Nat.mod_eq_of_lt (Nat.lt_trans hlt hj)
    have h4 : ¬m % k = j := by omega
    simp [h1, h2, h4, Nat.div_eq_of_lt (by omega : k - 1 < k)]
  · obtain ⟨a, rfl⟩ : ∃ a, m = j + a := ⟨m - j, by omega⟩
    have hsub1 : j + a + 1 - j + k - 1 = a + k := by omega
    have hsub2 : j + a - j + k - 1 = a + k - 1 := by omega
    rw [hsub1, hsub2]
    rcases a with _ | a2
    · simp [Nat.mod_eq_of_lt hj, Nat.div_self hk,
        Nat.div_eq_of_lt (by omega : k - 1 < k)]
    · have hcond : (j + (a2 + 1)) % k = j ↔ k ∣ a2 + 1 := mod_eq_iff_dvd_of_lt (a2 + 1) hj
      have hsub3 : a2 + 1 + k - 1 = a2 + k := by omega
      rw [hsub3, Nat.add_div_right a2 hk, Nat.add_div_right (a2 + 1) hk]
      by_cases hd : k ∣ a2 + 1
      · rw [if_pos (hcond.mpr hd), Nat.succ_div_of_dvd hd]
      · rw [if_neg (fun hh => hd (hcond.mp hh)), Nat.succ_div_of_not_dvd hd]

theorem length_routeTo_zero (j k : Nat) (hj : j < k) (l : List PyVal) :
    (routeTo 0 j k l).length = (l.length - j + k - 1) / k := by
  have hk : 0 < k := Nat.lt_of_le_of_lt (Nat.zero_le j) hj
  induction l using List.reverseRecOn with
  | nil =>
    simp [routeTo, Nat.div_eq_of_lt (by omega : k - 1 < k)]
  | append_singleton l x ih =>
    rw [routeTo_append j k l x 0]
    simp only [List.length_append, List.length_singleton]
    rw [ceil_step j k l.length hj, ← ih]
    by_cases h : l.length % k = j <;> simp [h]

theorem setDataFxn_step (p : String) (ip : PyVal) (st : ProcState) (c k : Nat)
    (conns : List Conn) (conn : Conn)
    (h1 : alookup p st.setDataCount = Option.some (c, k)) (hk : 0 < k)
    (h2 : alookup p st.outports = Option.some conns)
    (hc : conns[c % k]? = Option.some conn)
    (hcl : conn.eosClosed = false) :
    setDataFxn p ip st = (StepRes.ok PyVal.none,
      { st with
        logs := st.logs ++ [LogKind.sendLog],
        setDataCount := aupdate p (c + 1, k) st.setDataCount,
        outports := aupdate p
          (conns.set (c % k) { conn with buffer := conn.buffer ++ [ip] })
          st.outports }) := by
  have hk2 : ¬k = 0 := Nat.pos_iff_ne_zero.mp hk
  simp [setDataFxn, h1, h2, hc, hcl, hk2]

theorem sendMany_routeTo (p : String) :
    ∀ (ips : List PyVal) (st : ProcState) (c k : Nat) (conns : List Conn),
    alookup p st.setDataCount = Option.some (c, k) → 0 < k →
    alookup p st.outports = Option.some conns → conns.length = k →
    (∀ cc ∈ conns, cc.eosClosed = false) →
    ∃ st2 conns2,
      runLogic (ips.map (LogicStep.setDataCall p)) st = (StepRes.ok PyVal.none, st2)
      ∧ alookup p st2.setDataCount = Option.some (c + ips.length, k)
      ∧ alookup p st2.outports = Option.some conns2
      ∧ conns2.length = k
      ∧ (∀ cc ∈ conns2, cc.eosClosed = false)
      ∧ ∀ j, j < k →
          ∃ cc cc2, conns[j]? = Option.some cc ∧ conns2[j]? = Option.some cc2
            ∧ cc2.buffer = cc.buffer ++ routeTo c j k ips := by
  intro ips
  induction ips with
  | nil =>
    intro st c k conns h1 hk h2 hlen hopen
    refine ⟨st, conns, by simp [runLogic], by simpa using h1, h2, hlen, hopen, ?_⟩
    intro j hj
    have hjl : j < conns.length := by omega
    exact ⟨conns[j], conns[j], List.getElem?_eq_getElem hjl,
      List.getElem?_eq_getElem hjl, by simp [routeTo]⟩
  | cons ip ips2 ih =>
    intro st c k conns h1 hk h2 hlen hopen
    have hmod : c % k < conns.length := by
      rw [hlen]; exact Nat.mod_lt c hk
    have hc : conns[c % k]? = Option.some conns[c % k] := List.getElem?_eq_getElem hmod
    have hclosed : conns[c % k].eosClosed = false :=
      hopen conns[c % k] (List.getElem_mem hmod)
    have hstep := setDataFxn_step p ip st c k conns conns[c % k] h1 hk h2 hc hclosed
    set conn2 : Conn := { conns[c % k] with buffer := conns[c % k].buffer ++ [ip] } with hconn2
    set conns' : List Conn := conns.set (c % k) conn2 with hconns'
    set st' : ProcState :=
      { st with
        logs := st.logs ++ [LogKind.sendLog],
        setDataCount := aupdate p (c + 1, k) st.setDataCount,
        outports := aupdate p conns' st.outports } with hst'
    have h1' : alookup p st'.setDataCount = Option.some (c + 1, k) := by
      rw [hst']
      simp [alookup_aupdate_self, h1]
    have h2' : alookup p st'.outports = Option.some conns' := by
      rw [hst']
      simp [alookup_aupdate_self, h2]
    have hlen' : conns'.length = k := by
      rw [hconns', List.length_set, hlen]
    have hopen' : ∀ cc ∈ conns', cc.eosClosed = false := by
      intro cc hcc
      rcases List.mem_or_eq_of_mem_set hcc with hmem | rfl
      · exact hopen cc hmem
      · simpa [hconn2] using hclosed
    obtain ⟨st2, conns2, hrun, hsd2, hop2, hlen2, hopen2, hbuf2⟩ :=
      ih st' (c + 1) k conns' h1' hk h2' hlen' hopen'
    refine ⟨st2, conns2, ?_, by simpa [Nat.add_assoc, Nat.add_comm, Nat.add_left_comm] using hsd2,
      hop2, hlen2, hopen2, ?_⟩
    · simp [runLogic, execStep, hstep, ← hst', hrun]
    · intro j hj
      obtain ⟨cc, cc2, hccq, hcc2q, hb⟩ := hbuf2 j hj
      by_cases hjc : j = c % k
      · have hset : conns'[j]? = Option.some conn2 := by
          rw [hconns', hjc]
          exact List.getElem?_set_eq_of_lt conn2 hmod
        have hcc : cc = conn2 := by
          rw [hset] at hccq
          exact (Option.some.injEq _ _).mp hccq.symm
        have hcj : conns[j]? = Option.some conns[c % k] := by
          rw [hjc]
          exact hc
        refine ⟨conns[c % k], cc2, hcj, hcc2q, ?_⟩
        rw [hb, hcc]
        simp [hconn2, routeTo, hjc.symm]
      · have hne : ¬(c % k = j) := fun hh => hjc hh.symm
        have hccq2 : conns[j]? = Option.some cc := by
          rw [hconns'] at hccq
          rw [← hccq]
          exact (List.getElem?_set_ne hne).symm
        refine ⟨cc, cc2, hccq2, hcc2q, ?_⟩
        rw [hb]
        simp [routeTo, hne]

/-- Claim C3.  For an output port with k at least 1 connections and a fresh
round-robin counter, the i-th setData call (counting from 0) routes the IP
to endpoint i mod k and increments the per-port counter, so after m sends
the counter equals m and endpoint j holds exactly the IPs sent at call
indices congruent to j, which number exactly
ceil of (m - j) over k, i.e. (m - j + k - 1) / k, for every j below k. -/
theorem C3_roundRobin (p : String) (k : Nat) (ips : List PyVal) (st : ProcState)
    (conns : List Conn)
    (h1 : alookup p st.setDataCount = Option.some (0, k)) (hk : 0 < k)
    (h2 : alookup p st.outports = Option.some conns)
    (hlen : conns.length = k)
    (hopen : ∀ cc ∈ conns, cc.eosClosed = false)
    (hempty : ∀ cc ∈ conns, cc.buffer = []) :
    ∃ st2 conns2,
      runLogic (ips.map (LogicStep.setDataCall p)) st = (StepRes.ok PyVal.none, st2)
      ∧ alookup p st2.setDataCount = Option.some (ips.length, k)
      ∧ alookup p st2.outports = Option.some conns2
      ∧ conns2.length = k
      ∧ ∀ j, j < k → ∃ cc2, conns2[j]? = Option.some cc2
          ∧ cc2.buffer = routeTo 0 j k ips
          ∧ cc2.buffer.length = (ips.length - j + k - 1) / k := by
  obtain ⟨st2, conns2, hrun, hsd, hop, hlen2, _, hbuf⟩ :=
    sendMany_routeTo p ips st 0 k conns h1 hk h2 hlen hopen
  refine ⟨st2, conns2, hrun, by simpa using hsd, hop, hlen2, ?_⟩
  intro j hj
  obtain ⟨cc, cc2, hccq, hcc2q, hb⟩ := hbuf j hj
  have hccempty : cc.buffer = [] := hempty cc (List.getElem?_mem hccq)
  refine ⟨cc2, hcc2q, ?_, ?_⟩
  · rw [hb, hccempty]
    simp
  · rw [hb, hccempty]
    simp [length_routeTo_zero j k hj]

/-- Witness for C3_roundRobin: five sends on a two-connection port land as
three IPs on endpoint 0 and two on endpoint 1, with the counter at five. -/
theorem C3_witness :
    ∃ st2 conns2,
      runLogic
        ([PyVal.nat 1, PyVal.nat 2, PyVal.nat 3, PyVal.nat 4, PyVal.nat 5].map
          (LogicStep.setDataCall outPortName))
        (initState pName [] [] [(outPortName, [openConn [], openConn []])] [])
        = (StepRes.ok PyVal.none, st2)
      ∧ alookup outPortName st2.setDataCount = Option.some (5, 2)
      ∧ alookup outPortName st2.outports = Option.some conns2
      ∧ conns2.length = 2
      ∧ ∀ j, j < 2 → ∃ cc2, conns2[j]? = Option.some cc2
          ∧ cc2.buffer = routeTo 0 j 2
              [PyVal.nat 1, PyVal.nat 2, PyVal.nat 3, PyVal.nat 4, PyVal.nat 5]
          ∧ cc2.buffer.length = (5 - j + 2 - 1) / 2 := by
  exact C3_roundRobin outPortName 2
    [PyVal.nat 1, PyVal.nat 2, PyVal.nat 3, PyVal.nat 4, PyVal.nat 5]
    (initState pName [] [] [(outPortName, [openConn [], openConn []])] [])
    [openConn [], openConn []]
    (by rfl) (by decide) (by rfl) (by rfl)
    (by decide)
    (by
      intro cc hcc
      simp only [List.mem_cons, List.not_mem_nil, or_false] at hcc
      rcases hcc with rfl | rfl <;> rfl)

/-! ### Claim C10: ReceivedAllInputs can fire during the shutdown drain -/

/-- Claim C10.  There is an execution in which an input port delivers its
first IP only after user logic has returned, and the single
ReceivedAllInputs event is emitted during the shutdown drain: the drain
calls getDataAt, which records the port in the received set and runs
checkInputs.  Concretely: one input port whose connection holds one IP and
is sender-closed, user logic that reads nothing.  The run completes and its
only emission is a ReceivedAllInputs recorded in the drain phase. -/
theorem C10_drainEmission :
    isCompleted (fxn pName [] [(inPortName, [eosConn [PyVal.nat 5]])]
      [(eventsKey, [openConn []])] [] []) = true
    ∧ (resultState (fxn pName [] [(inPortName, [eosConn [PyVal.nat 5]])]
        [(eventsKey, [openConn []])] [] [])).emissions
      = [⟨raiKey, Phase.drain, false⟩] := by
  exact ⟨rfl, rfl⟩

/-! ### Claim C2: user-logic faults and connection closing -/

/-- Is every endpoint of the table still unclosed by the harness? -/
def tableUnclosed (t : List (String × List Conn)) : Bool :=
  t.all (fun pr => pr.2.all (fun c => !c.closedByHarness))

/-- Has the harness closed no endpoint at all? -/
def allUnclosed (st : ProcState) : Bool :=
  tableUnclosed st.inports && tableUnclosed st.outports && tableUnclosed st.corePorts

theorem tableUnclosed_iff (t : List (String × List Conn)) :
    tableUnclosed t = true ↔ ∀ pr ∈ t, ∀ c ∈ pr.2, c.closedByHarness = false := by
  simp [tableUnclosed, List.all_eq_true]

theorem alookup_entry_mem {α : Type} {p : String} {t : List (String × α)} {v : α}
    (h : alookup p t = Option.some v) : (p, v) ∈ t := by
  induction t with
  | nil => simp [alookup] at h
  | cons hd tl ih =>
    obtain ⟨k, x⟩ := hd
    by_cases hk : k = p
    · subst hk
      simp only [alookup, if_pos rfl] at h
      obtain rfl := (Option.some.injEq _ _).mp h.symm
      exact List.mem_cons_self _ _
    · simp only [alookup, hk, if_false] at h
      exact List.mem_cons_of_mem _ (ih h)

theorem tableUnclosed_aupdate {p : String} {v : List Conn}
    (hv : ∀ c ∈ v, c.closedByHarness = false) :
    ∀ t, tableUnclosed t = true → tableUnclosed (aupdate p v t) = true := by
  intro t
  induction t with
  | nil => intro h; simpa [aupdate] using h
  | cons hd tl ih =>
    obtain ⟨k, x⟩ := hd
    intro h
    simp only [tableUnclosed, List.all_cons, Bool.and_eq_true] at h
    obtain ⟨hx, htl⟩ := h
    by_cases hk : k = p
    · simp only [aupdate, if_pos hk, tableUnclosed, List.all_cons, Bool.and_eq_true]
      refine ⟨?_, ih htl⟩
      simp only [List.all_eq_true]
      intro c hc
      simp [hv c hc]
    · simp only [aupdate, if_neg hk, tableUnclosed, List.all_cons, Bool.and_eq_true]
      exact ⟨hx, ih htl⟩

theorem setDataFxn_unclosed (p : String) (d : PyVal) (st : ProcState)
    (h : allUnclosed st = true) : allUnclosed (setDataFxn p d st).2 = true := by
  have h3 := h
  simp only [allUnclosed, Bool.and_eq_true] at h3
  obtain ⟨⟨hin, hout⟩, hcore⟩ := h3
  simp only [setDataFxn]
  rcases h1 : alookup p st.setDataCount with _ | ⟨c, k⟩
  · simpa [allUnclosed] using h
  · by_cases hk : k = 0
    · simp only [hk, if_pos rfl]
      simpa [allUnclosed] using h
    · rcases h2 : alookup p st.outports with _ | conns
      · simp only [hk, if_neg, h2]
        simpa [allUnclosed] using h
      · rcases hc : conns[c % k]? with _ | conn
        · simp only [hk, if_neg, h2, hc]
          simpa [allUnclosed] using h
        · have hconns : ∀ cc ∈ conns, cc.closedByHarness = false :=
            (tableUnclosed_iff st.outports).mp hout (p, conns) (alookup_entry_mem h2)
          have hconn : conn.closedByHarness = false :=
            hconns conn (List.getElem?_mem hc)
          by_cases hcl : conn.eosClosed = true
          · simp only [hk, if_neg, h2, hc, hcl, if_pos]
            simpa [allUnclosed] using h
          · simp only [hk, h2, hc, hcl]
            simp only [allUnclosed, Bool.and_eq_true]
            refine ⟨⟨by simpa using hin, ?_⟩, by simpa using hcore⟩
            refine tableUnclosed_aupdate ?_ _ hout
            intro cc hcc
            rcases List.mem_or_eq_of_mem_set hcc with hmem | rfl
            · exact hconns cc hmem
            · exact hconn

theorem internalEvent_unclosed (ty : String) (st : ProcState)
    (h : allUnclosed st = true) : allUnclosed (internalEvent ty st).2 = true := by
  have hrec : allUnclosed (emitRecorded ty st) = true := by
    simpa [allUnclosed, emitRecorded, tableUnclosed] using h
  have hsend := setDataFxn_unclosed eventsKey (eventValOf ty st) (emitRecorded ty st) hrec
  rcases h1 : setDataFxn eventsKey (eventValOf ty st) (emitRecorded ty st) with ⟨r, s⟩
  rw [h1] at hsend
  simp only [internalEvent, h1]
  cases r with
  | ok v =>
    by_cases hB : isEventBlockingOf ty st = true <;> simpa [hB] using hsend
  | err e => simpa using hsend
  | blocked => simpa using hsend

theorem checkInputs_unclosed (st : ProcState)
    (h : allUnclosed st = true) : allUnclosed (checkInputs st).2 = true := by
  simp only [checkInputs]
  split
  · have hev := internalEvent_unclosed raiKey st h
    rcases h1 : internalEvent raiKey st with ⟨r, s⟩
    rw [h1] at hev
    cases r with
    | ok v => simpa [allUnclosed, tableUnclosed] using hev
    | err e => simpa using hev
    | blocked => simpa using hev
  · simpa using h

theorem getDataAtFxn_unclosed (i : Nat) (p : String) (b : Bool) (st : ProcState)
    (h : allUnclosed st = true) : allUnclosed (getDataAtFxn i p b st).2 = true := by
  have h3 := h
  simp only [allUnclosed, Bool.and_eq_true] at h3
  obtain ⟨⟨hin, hout⟩, hcore⟩ := h3
  simp only [getDataAtFxn]
  rcases h1 : alookup p st.inports with _ | conns
  · simpa [allUnclosed, h1] using h
  · rcases h2 : conns[i]? with _ | conn
    · simpa [allUnclosed, h1, h2] using h
    · obtain ⟨buf, eos, closed⟩ := conn
      rcases buf with _ | ⟨d, rest⟩
      · simp only [h1, h2]
        split
        · simpa [allUnclosed] using h
        · split <;> simpa [allUnclosed] using h
      · have hconns : ∀ cc ∈ conns, cc.closedByHarness = false :=
          (tableUnclosed_iff st.inports).mp hin (p, conns) (alookup_entry_mem h1)
        have hupd : allUnclosed (recvUpdate i p conns ⟨d :: rest, eos, closed⟩ rest st)
            = true := by
          simp only [recvUpdate, allUnclosed, Bool.and_eq_true]
          refine ⟨⟨?_, by simpa using hout⟩, by simpa using hcore⟩
          refine tableUnclosed_aupdate ?_ _ hin
          intro cc hcc
          rcases List.mem_or_eq_of_mem_set hcc with hmem | rfl
          · exact hconns cc hmem
          · exact hconns ⟨d :: rest, eos, closed⟩ (List.getElem?_mem h2)
        have hchk := checkInputs_unclosed _ hupd
        rcases h3 : checkInputs (recvUpdate i p conns ⟨d :: rest, eos, closed⟩ rest st)
          with ⟨r, s⟩
        rw [h3] at hchk
        simp only [h1, h2, h3]
        cases r with
        | ok v => simpa using hchk
        | err e => simpa using hchk
        | blocked => simpa using hchk

theorem getDataFxn_unclosed (p : String) (b : Bool) (st : ProcState)
    (h : allUnclosed st = true) : allUnclosed (getDataFxn p b st).2 = true := by
  simp only [getDataFxn]
  rcases h1 : alookup p st.inports with _ | conns
  · simpa [h1] using h
  · simp only [h1]
    split
    · exact getDataAtFxn_unclosed 0 p b _ h
    · exact getDataAtFxn_unclosed 0 p b _ h

theorem execStep_unclosed (s : LogicStep) (st : ProcState)
    (h : allUnclosed st = true) : allUnclosed (execStep s st).2 = true := by
  cases s with
  | getDataAtCall i p b => exact getDataAtFxn_unclosed i p b st h
  | getDataCall p b => exact getDataFxn_unclosed p b st h
  | setDataCall p d => exact setDataFxn_unclosed p d st h
  | raiseFault => simpa [execStep] using h

theorem runLogic_unclosed (l : List LogicStep) :
    ∀ st, allUnclosed st = true → allUnclosed (runLogic l st).2 = true := by
  induction l with
  | nil => intro st h; simpa [runLogic] using h
  | cons s rest ih =>
    intro st h
    have hs := execStep_unclosed s st h
    rcases h1 : execStep s st with ⟨r, st1⟩
    rw [h1] at hs
    simp only [runLogic, h1]
    cases r with
    | ok v => exact ih st1 hs
    | err e => exact hs
    | blocked => exact hs

theorem drainPassGo_unclosed (pairs : List (String × Nat)) :
    ∀ acc st, allUnclosed st = true → allUnclosed (drainPassGo pairs acc st).2 = true := by
  induction pairs with
  | nil => intro acc st h; simpa [drainPassGo] using h
  | cons pr rest ih =>
    intro acc st h
    obtain ⟨p, i⟩ := pr
    have hs := getDataAtFxn_unclosed i p true st h
    rcases h1 : getDataAtFxn i p true st with ⟨r, st1⟩
    rw [h1] at hs
    simp only [drainPassGo, h1]
    cases r with
    | ok v => exact ih false st1 hs
    | err e => cases e <;> first | exact ih acc st1 hs | exact hs
    | blocked => exact hs

theorem drainLoop_unclosed (fuel : Nat) :
    ∀ st, allUnclosed st = true → allUnclosed (drainLoop fuel st).2 = true := by
  induction fuel with
  | zero => intro st h; simpa [drainLoop] using h
  | succ fuel ih =>
    intro st h
    have hp := drainPassGo_unclosed (pairsOf st) true st h
    rcases h1 : drainPassGo (pairsOf st) true st with ⟨r, st1⟩
    rw [h1] at hp
    simp only [drainLoop, h1]
    cases r with
    | finished b => cases b <;> simp <;> first | exact ih st1 hp | exact hp
    | passBlocked => exact hp
    | passFail e => exact hp

/-- Claim C2, counterexample.  The claim says the harness closes every
output connection before exiting when user logic raises.  On the code, the
user logic runs with no handler: a concrete run whose logic raises leaves
the harness with the uncaught exception and not a single output endpoint
closed. -/
theorem C2_counterexample :
    isRaised (fxn pName [] [(inPortName, [eosConn []])]
      [(outPortName, [openConn []]), (eventsKey, [openConn []])] []
      [LogicStep.raiseFault]) = true
    ∧ tableUnclosed (resultState (fxn pName [] [(inPortName, [eosConn []])]
        [(outPortName, [openConn []]), (eventsKey, [openConn []])] []
        [LogicStep.raiseFault])).outports = true := by
  exact ⟨rfl, rfl⟩

/-- Claim C2, amended.  If user logic (or the pre-invocation event emission,
or the shutdown drain) raises an uncaught exception, the exception
propagates out of the harness and the harness closes nothing: every
endpoint of every table that started unclosed is still unclosed in the
final state.  Connections are closed only on the normal-return path. -/
theorem C2_amended (name : String) (metadata : List (String × PyVal))
    (inports outports corePorts : List (String × List Conn))
    (logic : List LogicStep) (e : PyErr) (st2 : ProcState)
    (hin : tableUnclosed inports = true) (hout : tableUnclosed outports = true)
    (hcore : tableUnclosed corePorts = true)
    (h : fxn name metadata inports outports corePorts logic = Outcome.raised e st2) :
    allUnclosed st2 = true := by
  have h0 : allUnclosed (initState name metadata inports outports corePorts) = true := by
    simp [allUnclosed, initState, hin, hout, hcore]
  have hchk := checkInputs_unclosed _ h0
  rcases h1 : checkInputs (initState name metadata inports outports corePorts)
    with ⟨r1, s1⟩
  rw [h1] at hchk
  simp only [fxn, h1] at h
  cases r1 with
  | ok v =>
    have hlog := runLogic_unclosed logic { s1 with phase := Phase.logic }
      (by simpa [allUnclosed, tableUnclosed] using hchk)
    rcases h2 : runLogic logic { s1 with phase := Phase.logic } with ⟨r2, s2⟩
    rw [h2] at hlog
    simp only [h2] at h
    cases r2 with
    | ok v2 =>
      set st3 : ProcState :=
        { s2 with phase := Phase.drain, logs := s2.logs ++ [LogKind.waitLog] } with hst3
      have hdr := drainLoop_unclosed (totalInBuf st3 + 1) st3
        (by simpa [hst3, allUnclosed, tableUnclosed] using hlog)
      rcases h3 : drainLoop (totalInBuf st3 + 1) st3 with ⟨r3, s3⟩
      rw [h3] at hdr
      simp only [← hst3, h3] at h
      cases r3 with
      | done => simp at h
      | drainBlocked => simp at h
      | drainFail e2 =>
        simp only [Outcome.raised.injEq] at h
        obtain ⟨_, rfl⟩ := h
        exact hdr
      | fuelOut => simp at h
    | err e2 =>
      simp only [Outcome.raised.injEq] at h
      obtain ⟨_, rfl⟩ := h
      exact hlog
    | blocked => simp at h
  | err e1 =>
    simp only [Outcome.raised.injEq] at h
    obtain ⟨_, rfl⟩ := h
    exact hchk
  | blocked => simp at h

/-- Witness for C2_amended: the concrete run whose logic raises hands back
the uncaught exception without closing anything anywhere. -/
theorem C2_witness :
    isRaised (fxn pName [] [(inPortName, [eosConn []])]
      [(outPortName, [openConn []]), (eventsKey, [openConn []])] []
      [LogicStep.raiseFault]) = true
    ∧ allUnclosed (resultState (fxn pName [] [(inPortName, [eosConn []])]
        [(outPortName, [openConn []]), (eventsKey, [openConn []])] []
        [LogicStep.raiseFault])) = true := by
  refine ⟨rfl, ?_⟩
  have hr : isRaised (fxn pName [] [(inPortName, [eosConn []])]
      [(outPortName, [openConn []]), (eventsKey, [openConn []])] []
      [LogicStep.raiseFault]) = true := rfl
  rcases hx : fxn pName [] [(inPortName, [eosConn []])]
      [(outPortName, [openConn []]), (eventsKey, [openConn []])] []
      [LogicStep.raiseFault] with st | ⟨e, st⟩ | st | st
  · rw [hx] at hr
    simp [isRaised] at hr
  · simpa [resultState] using
      C2_amended pName [] [(inPortName, [eosConn []])]
        [(outPortName, [openConn []]), (eventsKey, [openConn []])] []
        [LogicStep.raiseFault] e st (by rfl) (by rfl) (by rfl) hx
  · rw [hx] at hr
    simp [isRaised] at hr
  · rw [hx] at hr
    simp [isRaised] at hr

/-! ### Claim C5: shutdown drain and close completeness -/

theorem setDataFxn_no_eof (p : String) (d : PyVal) (st : ProcState) :
    (setDataFxn p d st).1 ≠ StepRes.err PyErr.eofError := by
  simp only [setDataFxn]
  split
  · simp
  · split
    · simp
    · split
      · simp
      · split
        · simp
        · split <;> simp

theorem internalEvent_no_eof (ty : String) (st : ProcState) :
    (internalEvent ty st).1 ≠ StepRes.err PyErr.eofError := by
  have hne := setDataFxn_no_eof eventsKey (eventValOf ty st) (emitRecorded ty st)
  rcases h : setDataFxn eventsKey (eventValOf ty st) (emitRecorded ty st) with ⟨r, s⟩
  rw [h] at hne
  cases r with
  | ok v =>
    simp only [internalEvent, h]
    split <;> simp
  | err e =>
    simp only [internalEvent, h]
    simpa using hne
  | blocked =>
    simp [internalEvent, h]

theorem checkInputs_no_eof (st : ProcState) :
    (checkInputs st).1 ≠ StepRes.err PyErr.eofError := by
  simp only [checkInputs]
  split
  · have hne := internalEvent_no_eof raiKey st
    rcases h : internalEvent raiKey st with ⟨r, s⟩
    rw [h] at hne
    cases r with
    | ok v => simp
    | err e => simpa using hne
    | blocked => simp
  · simp

/-- Inversion of a blocking getDataAt that signalled EndOfStream: the state
is untouched and the addressed connection is drained and sender-closed. -/
theorem getDataAtFxn_eof_inv (i : Nat) (p : String) (st st2 : ProcState)
    (h : getDataAtFxn i p true st = (StepRes.err PyErr.eofError, st2)) :
    st2 = st ∧ ∃ conns conn, alookup p st.inports = Option.some conns ∧
      conns[i]? = Option.some conn ∧ conn.buffer = [] ∧ conn.eosClosed = true := by
  rcases h1 : alookup p st.inports with _ | conns
  · simp [getDataAtFxn, h1] at h
  · rcases h2 : conns[i]? with _ | conn
    · simp [getDataAtFxn, h1, h2] at h
    · obtain ⟨buf, eos, closed⟩ := conn
      rcases buf with _ | ⟨d, rest⟩
      · rcases eos with _ | _
        · simp [getDataAtFxn, h1, h2] at h
        · simp [getDataAtFxn, h1, h2] at h
          refine ⟨?_, conns, ⟨[], true, closed⟩, rfl, h2, rfl, rfl⟩
          exact h.symm
      · have hno := checkInputs_no_eof (recvUpdate i p conns ⟨d :: rest, eos, closed⟩ rest st)
        rcases h3 : checkInputs (recvUpdate i p conns ⟨d :: rest, eos, closed⟩ rest st)
          with ⟨r, s⟩
        rw [h3] at hno
        simp only [getDataAtFxn, h1, h2, h3] at h
        cases r with
        | ok v => simp at h
        | err e =>
          simp only [Prod.mk.injEq, StepRes.err.injEq] at h
          obtain ⟨rfl, _⟩ := h
          simp at hno
        | blocked => simp at h

theorem drainPassGo_false : ∀ (pairs : List (String × Nat)) (st st2 : ProcState) (b : Bool),
    drainPassGo pairs false st = (PassRes.finished b, st2) → b = false := by
  intro pairs
  induction pairs with
  | nil =>
    intro st st2 b h
    simp only [drainPassGo, Prod.mk.injEq, PassRes.finished.injEq] at h
    exact h.1.symm
  | cons pr rest ih =>
    intro st st2 b h
    obtain ⟨p, i⟩ := pr
    rcases hg : getDataAtFxn i p true st with ⟨r, st1⟩
    simp only [drainPassGo, hg] at h
    cases r with
    | ok v => exact ih st1 st2 b h
    | err e =>
      cases e with
      | eofError => exact ih st1 st2 b h
      | keyError => simp at h
      | indexError => simp at h
      | ioErrorNotReady => simp at h
      | zeroDivisionError => simp at h
      | typeError => simp at h
      | userFault => simp at h
    | blocked => simp at h

theorem drainPassGo_true_inv : ∀ (pairs : List (String × Nat)) (st st2 : ProcState),
    drainPassGo pairs true st = (PassRes.finished true, st2) →
    st2 = st ∧ ∀ pr ∈ pairs, ∃ conns conn,
      alookup pr.1 st.inports = Option.some conns ∧
      conns[pr.2]? = Option.some conn ∧ conn.buffer = [] ∧ conn.eosClosed = true := by
  intro pairs
  induction pairs with
  | nil =>
    intro st st2 h
    simp only [drainPassGo, Prod.mk.injEq] at h
    exact ⟨h.2.symm, by simp⟩
  | cons pr rest ih =>
    intro st st2 h
    obtain ⟨p, i⟩ := pr
    rcases hg : getDataAtFxn i p true st with ⟨r, st1⟩
    simp only [drainPassGo, hg] at h
    cases r with
    | ok v =>
      exact absurd (drainPassGo_false rest st1 st2 true h) (by simp)
    | err e =>
      cases e with
      | eofError =>
        obtain ⟨hst1, hconn⟩ := getDataAtFxn_eof_inv i p st st1 hg
        rw [hst1] at h
        obtain ⟨hst2, hrest⟩ := ih st st2 h
        refine ⟨hst2, ?_⟩
        intro pr2 hpr2
        rcases List.mem_cons.mp hpr2 with rfl | hmem
        · simpa using hconn
        · exact hrest pr2 hmem
      | keyError => simp at h
      | indexError => simp at h
      | ioErrorNotReady => simp at h
      | zeroDivisionError => simp at h
      | typeError => simp at h
      | userFault => simp at h
    | blocked => simp at h

theorem drainLoop_done_inv : ∀ (fuel : Nat) (st st2 : ProcState),
    drainLoop fuel st = (DrainRes.done, st2) →
    ∀ pr ∈ pairsOf st2, ∃ conns conn,
      alookup pr.1 st2.inports = Option.some conns ∧
      conns[pr.2]? = Option.some conn ∧ conn.buffer = [] ∧ conn.eosClosed = true := by
  intro fuel
  induction fuel with
  | zero =>
    intro st st2 h
    simp [drainLoop] at h
  | succ fuel ih =>
    intro st st2 h
    rcases hp : drainPassGo (pairsOf st) true st with ⟨r, st1⟩
    simp only [drainLoop, hp] at h
    cases r with
    | finished b =>
      cases b with
      | true =>
        simp only [Prod.mk.injEq] at h
        obtain ⟨-, rfl⟩ := h
        obtain ⟨hst, hfacts⟩ := drainPassGo_true_inv (pairsOf st) st st1 hp
        subst hst
        exact hfacts
      | false => exact ih st1 st2 h
    | passBlocked => simp at h
    | passFail e => simp at h

theorem mem_pairsOf {st : ProcState} {p : String} {conns : List Conn}
    (hpr : (p, conns) ∈ st.inports) {i : Nat} (hi : i < conns.length) :
    (p, i) ∈ pairsOf st := by
  simp only [pairsOf, List.mem_flatMap]
  refine ⟨(p, conns), hpr, ?_⟩
  simp only [List.mem_map, List.mem_range]
  exact ⟨i, hi, rfl⟩

theorem alookup_of_nodup {α : Type} :
    ∀ {t : List (String × α)}, (akeys t).Nodup →
    ∀ {p : String} {v : α}, (p, v) ∈ t → alookup p t = Option.some v := by
  intro t
  induction t with
  | nil =>
    intro _ p v hm
    simp at hm
  | cons hd tl ih =>
    intro hnd p v hm
    obtain ⟨k, x⟩ := hd
    simp only [akeys, List.map_cons, List.nodup_cons] at hnd
    obtain ⟨hk, hnd2⟩ := hnd
    rcases List.mem_cons.mp hm with heq | hm2
    · injection heq with h1 h2
      subst h1
      subst h2
      simp [alookup]
    · have hkp : ¬k = p := by
        intro hkp2
        subst hkp2
        exact hk (by
          have := List.mem_map_of_mem Prod.fst hm2
          simpa [akeys] using this)
      simp only [alookup, if_neg hkp]
      exact ih hnd2 hm2

theorem drain_entry_facts {st : ProcState} (hnd : (akeys st.inports).Nodup)
    (hp : ∀ pr ∈ pairsOf st, ∃ conns conn,
      alookup pr.1 st.inports = Option.some conns ∧
      conns[pr.2]? = Option.some conn ∧ conn.buffer = [] ∧ conn.eosClosed = true) :
    ∀ pr ∈ st.inports, ∀ c ∈ pr.2, c.buffer = [] ∧ c.eosClosed = true := by
  intro pr hpr c hc
  obtain ⟨p, conns⟩ := pr
  obtain ⟨i, hi⟩ := List.mem_iff_getElem?.mp hc
  have hlen : i < conns.length := by
    by_contra hcon
    push_neg at hcon
    rw [List.getElem?_eq_none hcon] at hi
    simp at hi
  obtain ⟨conns0, conn0, hl0, hg0, hb0, he0⟩ := hp (p, i) (mem_pairsOf hpr hlen)
  have hconns : conns0 = conns := by
    have hself := alookup_of_nodup hnd hpr
    exact ((Option.some.injEq _ _).mp (hself.symm.trans hl0)).symm
  subst hconns
  rw [hi] at hg0
  obtain rfl := (Option.some.injEq _ _).mp hg0.symm
  exact ⟨hb0, he0⟩

theorem closeTable_closed {t : List (String × List Conn)} :
    ∀ pr ∈ closeTable t, ∀ c ∈ pr.2, c.closedByHarness = true := by
  intro pr hpr c hc
  simp only [closeTable, List.mem_map] at hpr
  obtain ⟨pr0, _, rfl⟩ := hpr
  simp only [List.mem_map] at hc
  obtain ⟨c0, _, rfl⟩ := hc
  rfl

theorem closeTable_forall {t : List (String × List Conn)} {P : Conn → Prop}
    (hP : ∀ c, P c → P { c with closedByHarness := true })
    (h : ∀ pr ∈ t, ∀ c ∈ pr.2, P c) :
    ∀ pr ∈ closeTable t, ∀ c ∈ pr.2, P c := by
  intro pr hpr c hc
  simp only [closeTable, List.mem_map] at hpr
  obtain ⟨pr0, hpr0, rfl⟩ := hpr
  simp only [List.mem_map] at hc
  obtain ⟨c0, hc0, rfl⟩ := hc
  exact hP c0 (h pr0 hpr0 c0 hc0)

theorem setDataFxn_inkeys (p : String) (d : PyVal) (st : ProcState) :
    akeys (setDataFxn p d st).2.inports = akeys st.inports := by
  rcases h1 : alookup p st.setDataCount with _ | ⟨c, k⟩
  · simp [setDataFxn, h1]
  · by_cases hk : k = 0
    · simp [setDataFxn, h1, hk]
    · rcases h2 : alookup p st.outports with _ | conns
      · simp [setDataFxn, h1, h2, hk]
      · rcases h3 : conns[c % k]? with _ | conn
        · simp [setDataFxn, h1, h2, h3, hk]
        · by_cases hc : conn.eosClosed <;> simp [setDataFxn, h1, h2, h3, hk, hc]

theorem internalEvent_inkeys (ty : String) (st : ProcState) :
    akeys (internalEvent ty st).2.inports = akeys st.inports := by
  have hk := setDataFxn_inkeys eventsKey (eventValOf ty st) (emitRecorded ty st)
  rcases h1 : setDataFxn eventsKey (eventValOf ty st) (emitRecorded ty st) with ⟨r, s⟩
  rw [h1] at hk
  have hk2 : akeys s.inports = akeys st.inports := by simpa [emitRecorded] using hk
  simp only [internalEvent, h1]
  cases r with
  | ok v =>
    by_cases hB : isEventBlockingOf ty st = true <;> simp [hB, hk2]
  | err e => simpa using hk2
  | blocked => simpa using hk2

theorem checkInputs_inkeys (st : ProcState) :
    akeys (checkInputs st).2.inports = akeys st.inports := by
  simp only [checkInputs]
  split
  · have hk := internalEvent_inkeys raiKey st
    rcases h1 : internalEvent raiKey st with ⟨r, s⟩
    rw [h1] at hk
    cases r with
    | ok v => simpa using hk
    | err e => simpa using hk
    | blocked => simpa using hk
  · simp

theorem getDataAtFxn_inkeys (i : Nat) (p : String) (b : Bool) (st : ProcState) :
    akeys (getDataAtFxn i p b st).2.inports = akeys st.inports := by
  rcases h1 : alookup p st.inports with _ | conns
  · simp [getDataAtFxn, h1]
  · rcases h2 : conns[i]? with _ | conn
    · simp [getDataAtFxn, h1, h2]
    · obtain ⟨buf, eos, closed⟩ := conn
      rcases buf with _ | ⟨d, rest⟩
      · simp only [getDataAtFxn, h1, h2]
        split
        · simp
        · split <;> simp
      · have hk := checkInputs_inkeys (recvUpdate i p conns ⟨d :: rest, eos, closed⟩ rest st)
        rcases h3 : checkInputs (recvUpdate i p conns ⟨d :: rest, eos, closed⟩ rest st)
          with ⟨r, s⟩
        rw [h3] at hk
        have hk2 : akeys s.inports = akeys st.inports := by
          rw [hk]
          simp [recvUpdate, akeys_aupdate]
        simp only [getDataAtFxn, h1, h2, h3]
        cases r with
        | ok v => simpa using hk2
        | err e => simpa using hk2
        | blocked => simpa using hk2

theorem getDataFxn_inkeys (p : String) (b : Bool) (st : ProcState) :
    akeys (getDataFxn p b st).2.inports = akeys st.inports := by
  simp only [getDataFxn]
  rcases h1 : alookup p st.inports with _ | conns
  · simp [h1]
  · simp only [h1]
    split
    · exact getDataAtFxn_inkeys 0 p b _
    · exact getDataAtFxn_inkeys 0 p b _

theorem execStep_inkeys (s : LogicStep) (st : ProcState) :
    akeys (execStep s st).2.inports = akeys st.inports := by
  cases s with
  | getDataAtCall i p b => exact getDataAtFxn_inkeys i p b st
  | getDataCall p b => exact getDataFxn_inkeys p b st
  | setDataCall p d => exact setDataFxn_inkeys p d st
  | raiseFault => rfl

theorem runLogic_inkeys (l : List LogicStep) :
    ∀ st, akeys (runLogic l st).2.inports = akeys st.inports := by
  induction l with
  | nil => intro st; rfl
  | cons s rest ih =>
    intro st
    have hs := execStep_inkeys s st
    rcases h1 : execStep s st with ⟨r, st1⟩
    rw [h1] at hs
    simp only [runLogic, h1]
    cases r with
    | ok v => rw [ih st1]; exact hs
    | err e => exact hs
    | blocked => exact hs

theorem drainPassGo_inkeys (pairs : List (String × Nat)) :
    ∀ acc st, akeys (drainPassGo pairs acc st).2.inports = akeys st.inports := by
  induction pairs with
  | nil => intro acc st; rfl
  | cons pr rest ih =>
    intro acc st
    obtain ⟨p, i⟩ := pr
    have hs := getDataAtFxn_inkeys i p true st
    rcases h1 : getDataAtFxn i p true st with ⟨r, st1⟩
    rw [h1] at hs
    simp only [drainPassGo, h1]
    cases r with
    | ok v => rw [ih false st1]; exact hs
    | err e =>
      cases e <;> simp only
      case eofError => rw [ih acc st1]; exact hs
      all_goals exact hs
    | blocked => exact hs

theorem drainLoop_inkeys (fuel : Nat) :
    ∀ st, akeys (drainLoop fuel st).2.inports = akeys st.inports := by
  induction fuel with
  | zero => intro st; rfl
  | succ fuel ih =>
    intro st
    have hp := drainPassGo_inkeys (pairsOf st) true st
    rcases h1 : drainPassGo (pairsOf st) true st with ⟨r, st1⟩
    rw [h1] at hp
    simp only [drainLoop, h1]
    cases r with
    | finished b =>
      cases b with
      | true => exact hp
      | false => rw [ih st1]; exact hp
    | passBlocked => exact hp
    | passFail e => exact hp

/-- Claim C5.  When the harness returns normally, it has drained every input
endpoint to EndOfStream: in the final state every input connection has an
empty buffer and its sender-close bit set, and every connection endpoint of
every table (inputs, outputs including the events port, and the extra
core[ports] table) has been closed by the harness.  The drain loop that
produces this repeatedly calls getDataAt(i, port) on every (port, index)
pair, discarding returned IPs, and treats only EndOfStream as progress
towards termination. -/
theorem C5_shutdownDrain (name : String) (metadata : List (String × PyVal))
    (inports outports corePorts : List (String × List Conn))
    (logic : List LogicStep) (st2 : ProcState)
    (hnd : (akeys inports).Nodup)
    (h : fxn name metadata inports outports corePorts logic = Outcome.completed st2) :
    (∀ pr ∈ st2.inports, ∀ c ∈ pr.2,
        c.buffer = [] ∧ c.eosClosed = true ∧ c.closedByHarness = true)
    ∧ (∀ pr ∈ st2.outports, ∀ c ∈ pr.2, c.closedByHarness = true)
    ∧ (∀ pr ∈ st2.corePorts, ∀ c ∈ pr.2, c.closedByHarness = true) := by
  rcases h1 : checkInputs (initState name metadata inports outports corePorts)
    with ⟨r1, s1⟩
  simp only [fxn, h1] at h
  cases r1 with
  | ok v =>
    rcases h2 : runLogic logic { s1 with phase := Phase.logic } with ⟨r2, s2⟩
    simp only [h2] at h
    cases r2 with
    | ok v2 =>
      set st3 : ProcState :=
        { s2 with phase := Phase.drain, logs := s2.logs ++ [LogKind.waitLog] } with hst3
      rcases h3 : drainLoop (totalInBuf st3 + 1) st3 with ⟨r3, s3⟩
      simp only [← hst3, h3] at h
      cases r3 with
      | done =>
        simp only [Outcome.completed.injEq] at h
        have hkeys : akeys s3.inports = akeys inports := by
          have ha2 : akeys s3.inports = akeys s2.inports := by
            have ha := drainLoop_inkeys (totalInBuf st3 + 1) st3
            rw [h3] at ha
            exact ha
          have hb2 : akeys s2.inports = akeys s1.inports := by
            have hb := runLogic_inkeys logic { s1 with phase := Phase.logic }
            rw [h2] at hb
            exact hb
          have hc2 : akeys s1.inports = akeys inports := by
            have hc := checkInputs_inkeys (initState name metadata inports outports corePorts)
            rw [h1] at hc
            exact hc
          exact (ha2.trans hb2).trans hc2
        have hnd3 : (akeys s3.inports).Nodup := by
          rw [hkeys]
          exact hnd
        have hfacts := drain_entry_facts hnd3 (drainLoop_done_inv _ _ _ h3)
        subst h
        refine ⟨?_, ?_, ?_⟩
        · intro pr hpr c hc
          have hpr2 : pr ∈ closeTable s3.inports := by
            simpa [closeAll] using hpr
          have hopen := closeTable_forall
            (P := fun c => c.buffer = [] ∧ c.eosClosed = true)
            (fun c hc2 => hc2) hfacts pr hpr2 c hc
          have hcl := closeTable_closed pr hpr2 c hc
          exact ⟨hopen.1, hopen.2, hcl⟩
        · intro pr hpr c hc
          have hpr2 : pr ∈ closeTable s3.outports := by
            simpa [closeAll] using hpr
          exact closeTable_closed pr hpr2 c hc
        · intro pr hpr c hc
          have hpr2 : pr ∈ closeTable s3.corePorts := by
            simpa [closeAll] using hpr
          exact closeTable_closed pr hpr2 c hc
      | drainBlocked => simp at h
      | drainFail e => simp at h
      | fuelOut => simp at h
    | err e => simp at h
    | blocked => simp at h
  | err e => simp at h
  | blocked => simp at h

/-- Every endpoint of the table drained and fully closed? -/
def tableDrainedClosed (t : List (String × List Conn)) : Bool :=
  t.all (fun pr => pr.2.all (fun c => c.buffer.isEmpty && c.eosClosed && c.closedByHarness))

/-- Every endpoint of the table closed by the harness? -/
def tableClosed (t : List (String × List Conn)) : Bool :=
  t.all (fun pr => pr.2.all (fun c => c.closedByHarness))

theorem tableDrainedClosed_of (t : List (String × List Conn))
    (h : ∀ pr ∈ t, ∀ c ∈ pr.2,
      c.buffer = [] ∧ c.eosClosed = true ∧ c.closedByHarness = true) :
    tableDrainedClosed t = true := by
  simp only [tableDrainedClosed, List.all_eq_true, Bool.and_eq_true]
  intro pr hpr c hc
  obtain ⟨h1, h2, h3⟩ := h pr hpr c hc
  simp [h1, h2, h3]

theorem tableClosed_of (t : List (String × List Conn))
    (h : ∀ pr ∈ t, ∀ c ∈ pr.2, c.closedByHarness = true) :
    tableClosed t = true := by
  simp only [tableClosed, List.all_eq_true]
  exact h

/-- Witness for C5_shutdownDrain: a run with one buffered, sender-closed
input connection completes and leaves every endpoint drained and closed. -/
theorem C5_witness :
    isCompleted (fxn pName [] [(inPortName, [eosConn [PyVal.nat 5]])]
      [(eventsKey, [openConn []])] [] []) = true
    ∧ tableDrainedClosed (resultState (fxn pName []
        [(inPortName, [eosConn [PyVal.nat 5]])] [(eventsKey, [openConn []])] [] [])).inports
      = true
    ∧ tableClosed (resultState (fxn pName []
        [(inPortName, [eosConn [PyVal.nat 5]])] [(eventsKey, [openConn []])] [] [])).outports
      = true := by
  refine ⟨rfl, ?_⟩
  have hc : isCompleted (fxn pName [] [(inPortName, [eosConn [PyVal.nat 5]])]
      [(eventsKey, [openConn []])] [] []) = true := rfl
  rcases hx : fxn pName [] [(inPortName, [eosConn [PyVal.nat 5]])]
      [(eventsKey, [openConn []])] [] [] with st | ⟨e, st⟩ | st | st
  · obtain ⟨hi, ho, _⟩ := C5_shutdownDrain pName []
      [(inPortName, [eosConn [PyVal.nat 5]])] [(eventsKey, [openConn []])] [] [] st
      (by simp [akeys]) hx
    exact ⟨tableDrainedClosed_of _ hi, tableClosed_of _ ho⟩
  · rw [hx] at hc
    simp [isCompleted] at hc
  · rw [hx] at hc
    simp [isCompleted] at hc
  · rw [hx] at hc
    simp [isCompleted] at hc

/-! ### Claim C4: ReceivedAllInputs emission discipline -/

/-- ReceivedAllInputs count of an emissions list. -/
def raiCountE (l : List Emission) : Nat :=
  l.countP (fun e => e.ty == raiKey)

theorem raiCount_eq (st : ProcState) : raiCount st = raiCountE st.emissions := rfl

theorem raiCountE_append_rai (l : List Emission) (ph : Phase) (b : Bool) :
    raiCountE (l ++ [⟨raiKey, ph, b⟩]) = raiCountE l + 1 := by
  simp [raiCountE, List.countP_append, List.countP_cons]

/-- The between-steps invariant of the emission machinery: the count of
ReceivedAllInputs emissions matches the hasAllInputs flag, the received set
stays inside the input-port key set, and the flag is set exactly when the
received set covers every input port. -/
def InvRAI0 (st : ProcState) : Prop :=
  raiCount st = (if st.hasAllInputs then 1 else 0)
  ∧ (∀ x ∈ st.received, x ∈ akeys st.inports)
  ∧ (st.hasAllInputs = true → eqSetB st.received (akeys st.inports) = true)

def InvRAI (st : ProcState) : Prop :=
  InvRAI0 st
  ∧ (eqSetB st.received (akeys st.inports) = true → st.hasAllInputs = true)

theorem InvRAI_congr {a b : ProcState} (he : b.emissions = a.emissions)
    (hr : b.received = a.received) (hh : b.hasAllInputs = a.hasAllInputs)
    (hk : akeys b.inports = akeys a.inports) (h : InvRAI a) : InvRAI b := by
  obtain ⟨⟨c1, c2, c3⟩, c4⟩ := h
  refine ⟨⟨?_, ?_, ?_⟩, ?_⟩
  · rw [raiCount_eq, he, hh]
    exact c1
  · rw [hr, hk]
    exact c2
  · rw [hh, hr, hk]
    exact c3
  · rw [hh, hr, hk]
    exact c4

theorem InvRAI_count_le {st : ProcState} (h : InvRAI st) : raiCount st ≤ 1 := by
  rw [h.1.1]
  split <;> simp

theorem mem_addRecv {r : List String} {p x : String} (h : x ∈ addRecv r p) :
    x ∈ r ∨ x = p := by
  unfold addRecv at h
  split at h
  · exact Or.inl h
  · rcases List.mem_append.mp h with h2 | h2
    · exact Or.inl h2
    · exact Or.inr (by simpa using h2)

theorem subset_addRecv (r : List String) (p : String) : ∀ x ∈ r, x ∈ addRecv r p := by
  intro x hx
  unfold addRecv
  split
  · exact hx
  · exact List.mem_append_left _ hx

theorem setDataFxn_rfields (p : String) (d : PyVal) (st : ProcState) :
    (setDataFxn p d st).2.emissions = st.emissions
    ∧ (setDataFxn p d st).2.received = st.received
    ∧ (setDataFxn p d st).2.hasAllInputs = st.hasAllInputs := by
  rcases h1 : alookup p st.setDataCount with _ | ⟨c, k⟩
  · simp [setDataFxn, h1]
  · by_cases hk : k = 0
    · simp [setDataFxn, h1, hk]
    · rcases h2 : alookup p st.outports with _ | conns
      · simp [setDataFxn, h1, h2, hk]
      · rcases h3 : conns[c % k]? with _ | conn
        · simp [setDataFxn, h1, h2, h3, hk]
        · by_cases hc : conn.eosClosed <;> simp [setDataFxn, h1, h2, h3, hk, hc]

theorem internalEvent_rfields (ty : String) (st : ProcState) :
    (internalEvent ty st).2.emissions
      = st.emissions ++ [⟨ty, st.phase, isEventBlockingOf ty st⟩]
    ∧ (internalEvent ty st).2.received = st.received
    ∧ (internalEvent ty st).2.hasAllInputs = st.hasAllInputs := by
  have hf := setDataFxn_rfields eventsKey (eventValOf ty st) (emitRecorded ty st)
  rcases h1 : setDataFxn eventsKey (eventValOf ty st) (emitRecorded ty st) with ⟨r, s⟩
  rw [h1] at hf
  have hf2 : s.emissions = st.emissions ++ [⟨ty, st.phase, isEventBlockingOf ty st⟩]
      ∧ s.received = st.received ∧ s.hasAllInputs = st.hasAllInputs := hf
  cases r with
  | ok v =>
    by_cases hB : isEventBlockingOf ty st = true <;>
      simp [internalEvent, h1, hB, hf2.1, hf2.2.1, hf2.2.2]
  | err e => simpa [internalEvent, h1] using hf2
  | blocked => simpa [internalEvent, h1] using hf2

/-- Behaviour of checkInputs with respect to the emission invariant: from a
state satisfying the weak invariant, a normal return re-establishes the full
invariant, and any result keeps the emission count at most one. -/
theorem checkInputs_inv (st : ProcState) (h0 : InvRAI0 st) :
    (∀ v s, checkInputs st = (StepRes.ok v, s) → InvRAI s)
    ∧ (∀ r s, checkInputs st = (r, s) → raiCount s ≤ 1) := by
  obtain ⟨c1, c2, c3⟩ := h0
  by_cases hcond : (!st.hasAllInputs && eqSetB st.received (akeys st.inports)) = true
  · obtain ⟨hh, he⟩ := Bool.and_eq_true_iff.mp hcond
    have hh2 : st.hasAllInputs = false := by
      cases hha : st.hasAllInputs
      · rfl
      · rw [hha] at hh
        simp at hh
    have hcount0 : raiCount st = 0 := by
      rw [c1, hh2]
      rfl
    have hrf := internalEvent_rfields raiKey st
    rcases h1 : internalEvent raiKey st with ⟨r, s0⟩
    rw [h1] at hrf
    obtain ⟨hre, hrr, hrh⟩ := hrf
    have hcnt : raiCount s0 = 1 := by
      rw [raiCount_eq, hre, raiCountE_append_rai, ← raiCount_eq, hcount0]
    have hkeys : akeys s0.inports = akeys st.inports := by
      have := internalEvent_inkeys raiKey st
      rw [h1] at this
      exact this
    constructor
    · intro v s hs
      simp only [checkInputs, hcond, if_pos, h1] at hs
      cases r with
      | ok v2 =>
        simp only [Prod.mk.injEq] at hs
        obtain ⟨-, rfl⟩ := hs
        refine ⟨⟨?_, ?_, ?_⟩, ?_⟩
        · simpa [raiCount_eq] using hcnt
        · intro x hx
          rw [hrr] at hx
          rw [hkeys]
          exact c2 x hx
        · intro _
          rw [hrr, hkeys]
          exact he
        · intro _
          rfl
      | err e => simp at hs
      | blocked => simp at hs
    · intro r2 s hs
      simp only [checkInputs, hcond, if_pos, h1] at hs
      cases r with
      | ok v2 =>
        simp only [Prod.mk.injEq] at hs
        obtain ⟨-, rfl⟩ := hs
        simpa [raiCount_eq] using Nat.le_of_eq hcnt
      | err e =>
        simp only [Prod.mk.injEq] at hs
        obtain ⟨-, rfl⟩ := hs
        exact Nat.le_of_eq hcnt
      | blocked =>
        simp only [Prod.mk.injEq] at hs
        obtain ⟨-, rfl⟩ := hs
        exact Nat.le_of_eq hcnt
  · have heq : checkInputs st = (StepRes.ok PyVal.none, st) := by
      simp [checkInputs, hcond]
    constructor
    · intro v s hs
      rw [heq] at hs
      simp only [Prod.mk.injEq] at hs
      obtain ⟨-, rfl⟩ := hs
      refine ⟨⟨c1, c2, c3⟩, ?_⟩
      intro hset
      cases hha : st.hasAllInputs
      · rw [hha] at hcond
        simp [hset] at hcond
      · rfl
    · intro r s hs
      rw [heq] at hs
      simp only [Prod.mk.injEq] at hs
      obtain ⟨-, rfl⟩ := hs
      rw [c1]
      split <;> simp

theorem getDataAtFxn_inv (i : Nat) (p : String) (b : Bool) (st : ProcState)
    (h : InvRAI st) :
    (∀ v s, getDataAtFxn i p b st = (StepRes.ok v, s) → InvRAI s)
    ∧ (∀ r s, getDataAtFxn i p b st = (r, s) → raiCount s ≤ 1) := by
  rcases h1 : alookup p st.inports with _ | conns
  · constructor
    · intro v s hs
      simp only [getDataAtFxn, h1] at hs
      simp at hs
    · intro r s hs
      simp only [getDataAtFxn, h1, Prod.mk.injEq] at hs
      obtain ⟨-, rfl⟩ := hs
      exact InvRAI_count_le h
  · rcases h2 : conns[i]? with _ | conn
    · constructor
      · intro v s hs
        simp only [getDataAtFxn, h1, h2] at hs
        simp at hs
      · intro r s hs
        simp only [getDataAtFxn, h1, h2, Prod.mk.injEq] at hs
        obtain ⟨-, rfl⟩ := hs
        exact InvRAI_count_le h
    · obtain ⟨buf, eos, closed⟩ := conn
      rcases buf with _ | ⟨d, rest⟩
      · constructor
        · intro v s hs
          simp only [getDataAtFxn, h1, h2] at hs
          split at hs
          · simp at hs
          · split at hs <;> simp at hs
        · intro r s hs
          simp only [getDataAtFxn, h1, h2] at hs
          split at hs
          · simp only [Prod.mk.injEq] at hs
            obtain ⟨-, rfl⟩ := hs
            exact InvRAI_count_le h
          · split at hs <;>
              (simp only [Prod.mk.injEq] at hs
               obtain ⟨-, rfl⟩ := hs
               exact InvRAI_count_le h)
      · obtain ⟨⟨c1, c2, c3⟩, c4⟩ := h
        set st' : ProcState := recvUpdate i p conns ⟨d :: rest, eos, closed⟩ rest st
          with hst'
        have hpkeys : p ∈ akeys st.inports := alookup_mem_akeys h1
        have hkeys' : akeys st'.inports = akeys st.inports := by
          rw [hst']
          simp [recvUpdate, akeys_aupdate]
        have h0' : InvRAI0 st' := by
          refine ⟨?_, ?_, ?_⟩
          · exact c1
          · intro x hx
            rw [hkeys']
            have hx2 : x ∈ addRecv st.received p := hx
            rcases mem_addRecv hx2 with hmem | rfl
            · exact c2 x hmem
            · exact hpkeys
          · intro hha
            have he := c3 hha
            rw [hkeys']
            rw [eqSetB_true_iff] at he ⊢
            obtain ⟨hab, hba⟩ := he
            constructor
            · intro x hx
              rcases mem_addRecv hx with hmem | rfl
              · exact hab x hmem
              · exact hpkeys
            · intro x hx
              exact subset_addRecv _ _ x (hba x hx)
        have hchk := checkInputs_inv st' h0'
        rcases h3 : checkInputs st' with ⟨r3, s3⟩
        constructor
        · intro v s hs
          simp only [getDataAtFxn, h1, h2, List.isEmpty_cons, Bool.and_false,
            Bool.false_eq_true, if_false, ← hst', h3] at hs
          cases r3 with
          | ok v3 =>
            simp only [Prod.mk.injEq] at hs
            obtain ⟨-, rfl⟩ := hs
            exact hchk.1 v3 s3 h3
          | err e => simp at hs
          | blocked => simp at hs
        · intro r s hs
          simp only [getDataAtFxn, h1, h2, List.isEmpty_cons, Bool.and_false,
            Bool.false_eq_true, if_false, ← hst', h3] at hs
          cases r3 with
          | ok v3 =>
            simp only [Prod.mk.injEq] at hs
            obtain ⟨-, rfl⟩ := hs
            exact hchk.2 _ _ h3
          | err e =>
            simp only [Prod.mk.injEq] at hs
            obtain ⟨-, rfl⟩ := hs
            exact hchk.2 _ _ h3
          | blocked =>
            simp only [Prod.mk.injEq] at hs
            obtain ⟨-, rfl⟩ := hs
            exact hchk.2 _ _ h3

theorem getDataFxn_inv (p : String) (b : Bool) (st : ProcState) (h : InvRAI st) :
    (∀ v s, getDataFxn p b st = (StepRes.ok v, s) → InvRAI s)
    ∧ (∀ r s, getDataFxn p b st = (r, s) → raiCount s ≤ 1) := by
  rcases h1 : alookup p st.inports with _ | conns
  · constructor
    · intro v s hs
      simp only [getDataFxn, h1] at hs
      simp at hs
    · intro r s hs
      simp only [getDataFxn, h1, Prod.mk.injEq] at hs
      obtain ⟨-, rfl⟩ := hs
      exact InvRAI_count_le h
  · by_cases hlen : conns.length > 1
    · have := getDataAtFxn_inv 0 p b
        { st with logs := st.logs ++ [LogKind.connCountLog] ++ [LogKind.multiConnWarnLog] } h
      constructor
      · intro v s hs
        simp only [getDataFxn, h1, hlen, if_pos] at hs
        exact this.1 v s hs
      · intro r s hs
        simp only [getDataFxn, h1, hlen, if_pos] at hs
        exact this.2 r s hs
    · have := getDataAtFxn_inv 0 p b
        { st with logs := st.logs ++ [LogKind.connCountLog] } h
      constructor
      · intro v s hs
        simp only [getDataFxn, h1, hlen, if_neg] at hs
        exact this.1 v s hs
      · intro r s hs
        simp only [getDataFxn, h1, hlen, if_neg] at hs
        exact this.2 r s hs

theorem setDataFxn_inv (p : String) (d : PyVal) (st : ProcState) (h : InvRAI st) :
    (∀ v s, setDataFxn p d st = (StepRes.ok v, s) → InvRAI s)
    ∧ (∀ r s, setDataFxn p d st = (r, s) → raiCount s ≤ 1) := by
  have hf := setDataFxn_rfields p d st
  have hk := setDataFxn_inkeys p d st
  rcases h1 : setDataFxn p d st with ⟨r0, s0⟩
  rw [h1] at hf hk
  have hInv : InvRAI s0 := InvRAI_congr hf.1 hf.2.1 hf.2.2 hk h
  constructor
  · intro v s hs
    simp only [Prod.mk.injEq] at hs
    obtain ⟨-, rfl⟩ := hs
    exact hInv
  · intro r s hs
    simp only [Prod.mk.injEq] at hs
    obtain ⟨-, rfl⟩ := hs
    exact InvRAI_count_le hInv

theorem execStep_inv (sp : LogicStep) (st : ProcState) (h : InvRAI st) :
    (∀ v s, execStep sp st = (StepRes.ok v, s) → InvRAI s)
    ∧ (∀ r s, execStep sp st = (r, s) → raiCount s ≤ 1) := by
  cases sp with
  | getDataAtCall i p b => exact getDataAtFxn_inv i p b st h
  | getDataCall p b => exact getDataFxn_inv p b st h
  | setDataCall p d => exact setDataFxn_inv p d st h
  | raiseFault =>
    constructor
    · intro v s hs
      simp [execStep] at hs
    · intro r s hs
      simp only [execStep, Prod.mk.injEq] at hs
      obtain ⟨-, rfl⟩ := hs
      exact InvRAI_count_le h

theorem runLogic_inv (l : List LogicStep) :
    ∀ st, InvRAI st →
    (∀ v s, runLogic l st = (StepRes.ok v, s) → InvRAI s)
    ∧ (∀ r s, runLogic l st = (r, s) → raiCount s ≤ 1) := by
  induction l with
  | nil =>
    intro st h
    constructor
    · intro v s hs
      simp only [runLogic, Prod.mk.injEq] at hs
      obtain ⟨-, rfl⟩ := hs
      exact h
    · intro r s hs
      simp only [runLogic, Prod.mk.injEq] at hs
      obtain ⟨-, rfl⟩ := hs
      exact InvRAI_count_le h
  | cons sp rest ih =>
    intro st h
    have hstep := execStep_inv sp st h
    rcases h1 : execStep sp st with ⟨r1, s1⟩
    constructor
    · intro v s hs
      simp only [runLogic, h1] at hs
      cases r1 with
      | ok v1 => exact (ih s1 (hstep.1 v1 s1 h1)).1 v s hs
      | err e => simp at hs
      | blocked => simp at hs
    · intro r s hs
      simp only [runLogic, h1] at hs
      cases r1 with
      | ok v1 => exact (ih s1 (hstep.1 v1 s1 h1)).2 r s hs
      | err e =>
        simp only [Prod.mk.injEq] at hs
        obtain ⟨-, rfl⟩ := hs
        exact hstep.2 _ _ h1
      | blocked =>
        simp only [Prod.mk.injEq] at hs
        obtain ⟨-, rfl⟩ := hs
        exact hstep.2 _ _ h1

theorem drainPassGo_inv (pairs : List (String × Nat)) :
    ∀ acc st, InvRAI st →
    (∀ bres s, drainPassGo pairs acc st = (PassRes.finished bres, s) → InvRAI s)
    ∧ (∀ r s, drainPassGo pairs acc st = (r, s) → raiCount s ≤ 1) := by
  induction pairs with
  | nil =>
    intro acc st h
    constructor
    · intro bres s hs
      simp only [drainPassGo, Prod.mk.injEq] at hs
      obtain ⟨-, rfl⟩ := hs
      exact h
    · intro r s hs
      simp only [drainPassGo, Prod.mk.injEq] at hs
      obtain ⟨-, rfl⟩ := hs
      exact InvRAI_count_le h
  | cons pr rest ih =>
    intro acc st h
    obtain ⟨p, i⟩ := pr
    have hstep := getDataAtFxn_inv i p true st h
    rcases h1 : getDataAtFxn i p true st with ⟨r1, s1⟩
    constructor
    · intro bres s hs
      simp only [drainPassGo, h1] at hs
      cases r1 with
      | ok v1 => exact (ih false s1 (hstep.1 v1 s1 h1)).1 bres s hs
      | err e =>
        cases e with
        | eofError =>
          have hinv1 : InvRAI s1 := by
            obtain ⟨hse, -⟩ := getDataAtFxn_eof_inv i p st s1 h1
            rw [hse]
            exact h
          exact (ih acc s1 hinv1).1 bres s hs
        | keyError => simp at hs
        | indexError => simp at hs
        | ioErrorNotReady => simp at hs
        | zeroDivisionError => simp at hs
        | typeError => simp at hs
        | userFault => simp at hs
      | blocked => simp at hs
    · intro r s hs
      simp only [drainPassGo, h1] at hs
      cases r1 with
      | ok v1 => exact (ih false s1 (hstep.1 v1 s1 h1)).2 r s hs
      | err e =>
        cases e with
        | eofError =>
          have hinv1 : InvRAI s1 := by
            obtain ⟨hse, -⟩ := getDataAtFxn_eof_inv i p st s1 h1
            rw [hse]
            exact h
          exact (ih acc s1 hinv1).2 r s hs
        | keyError =>
          simp only [Prod.mk.injEq] at hs
          obtain ⟨-, rfl⟩ := hs
          exact hstep.2 _ _ h1
        | indexError =>
          simp only [Prod.mk.injEq] at hs
          obtain ⟨-, rfl⟩ := hs
          exact hstep.2 _ _ h1
        | ioErrorNotReady =>
          simp only [Prod.mk.injEq] at hs
          obtain ⟨-, rfl⟩ := hs
          exact hstep.2 _ _ h1
        | zeroDivisionError =>
          simp only [Prod.mk.injEq] at hs
          obtain ⟨-, rfl⟩ := hs
          exact hstep.2 _ _ h1
        | typeError =>
          simp only [Prod.mk.injEq] at hs
          obtain ⟨-, rfl⟩ := hs
          exact hstep.2 _ _ h1
        | userFault =>
          simp only [Prod.mk.injEq] at hs
          obtain ⟨-, rfl⟩ := hs
          exact hstep.2 _ _ h1
      | blocked =>
        simp only [Prod.mk.injEq] at hs
        obtain ⟨-, rfl⟩ := hs
        exact hstep.2 _ _ h1

theorem drainLoop_inv (fuel : Nat) :
    ∀ st, InvRAI st →
    (∀ s, drainLoop fuel st = (DrainRes.done, s) → InvRAI s)
    ∧ (∀ r s, drainLoop fuel st = (r, s) → raiCount s ≤ 1) := by
  induction fuel with
  | zero =>
    intro st h
    constructor
    · intro s hs
      simp [drainLoop] at hs
    · intro r s hs
      simp only [drainLoop, Prod.mk.injEq] at hs
      obtain ⟨-, rfl⟩ := hs
      exact InvRAI_count_le h
  | succ fuel ih =>
    intro st h
    have hpass := drainPassGo_inv (pairsOf st) true st h
    rcases h1 : drainPassGo (pairsOf st) true st with ⟨r1, s1⟩
    constructor
    · intro s hs
      simp only [drainLoop, h1] at hs
      cases r1 with
      | finished b =>
        cases b with
        | true =>
          simp only [Prod.mk.injEq] at hs
          obtain ⟨-, rfl⟩ := hs
          exact hpass.1 true s1 h1
        | false => exact (ih s1 (hpass.1 false s1 h1)).1 s hs
      | passBlocked => simp at hs
      | passFail e => simp at hs
    · intro r s hs
      simp only [drainLoop, h1] at hs
      cases r1 with
      | finished b =>
        cases b with
        | true =>
          simp only [Prod.mk.injEq] at hs
          obtain ⟨-, rfl⟩ := hs
          exact InvRAI_count_le (hpass.1 true s1 h1)
        | false => exact (ih s1 (hpass.1 false s1 h1)).2 r s hs
      | passBlocked =>
        simp only [Prod.mk.injEq] at hs
        obtain ⟨-, rfl⟩ := hs
        exact hpass.2 _ _ h1
      | passFail e =>
        simp only [Prod.mk.injEq] at hs
        obtain ⟨-, rfl⟩ := hs
        exact hpass.2 _ _ h1

theorem akeys_closeTable (t : List (String × List Conn)) :
    akeys (closeTable t) = akeys t := by
  induction t with
  | nil => rfl
  | cons hd tl ih => simp [closeTable, akeys, ih]

theorem InvRAI_closeAll {st : ProcState} (h : InvRAI st) : InvRAI (closeAll st) :=
  InvRAI_congr (a := st) (b := closeAll st) rfl rfl rfl (akeys_closeTable st.inports) h

/-- The emission invariant across a whole harness run: a normal completion
satisfies the full invariant, and every outcome carries at most one
ReceivedAllInputs emission. -/
theorem fxn_rai (name : String) (metadata : List (String × PyVal))
    (inports outports corePorts : List (String × List Conn)) (logic : List LogicStep) :
    (∀ st2, fxn name metadata inports outports corePorts logic = Outcome.completed st2 →
      InvRAI st2)
    ∧ raiCount (resultState (fxn name metadata inports outports corePorts logic)) ≤ 1 := by
  have h0 : InvRAI0 (initState name metadata inports outports corePorts) := by
    refine ⟨rfl, ?_, ?_⟩
    · intro x hx
      simp [initState] at hx
    · intro hha
      simp [initState] at hha
  have hchk := checkInputs_inv _ h0
  rcases h1 : checkInputs (initState name metadata inports outports corePorts)
    with ⟨r1, s1⟩
  cases r1 with
  | ok v1 =>
    have hInv1 : InvRAI s1 := hchk.1 v1 s1 h1
    have hInv1b : InvRAI { s1 with phase := Phase.logic } := hInv1
    have hlog := runLogic_inv logic { s1 with phase := Phase.logic } hInv1b
    rcases h2 : runLogic logic { s1 with phase := Phase.logic } with ⟨r2, s2⟩
    cases r2 with
    | ok v2 =>
      have hInv2 : InvRAI s2 := hlog.1 v2 s2 h2
      set st3 : ProcState :=
        { s2 with phase := Phase.drain, logs := s2.logs ++ [LogKind.waitLog] } with hst3
      have hInv3 : InvRAI st3 := hInv2
      have hdr := drainLoop_inv (totalInBuf st3 + 1) st3 hInv3
      rcases h3 : drainLoop (totalInBuf st3 + 1) st3 with ⟨r3, s3⟩
      cases r3 with
      | done =>
        have hInvDone : InvRAI s3 := hdr.1 s3 h3
        have hres : fxn name metadata inports outports corePorts logic
            = Outcome.completed
              { closeAll s3 with logs := (closeAll s3).logs ++ [LogKind.endLog] } := by
          simp [fxn, h1, h2, ← hst3, h3]
        have hInvFinal :
            InvRAI { closeAll s3 with logs := (closeAll s3).logs ++ [LogKind.endLog] } :=
          InvRAI_closeAll hInvDone
        constructor
        · intro st2 hst2
          rw [hres] at hst2
          obtain rfl := (Outcome.completed.injEq _ _).mp hst2.symm
          exact hInvFinal
        · rw [hres]
          exact InvRAI_count_le hInvFinal
      | drainBlocked =>
        have hres : fxn name metadata inports outports corePorts logic
            = Outcome.blockedRun s3 := by
          simp [fxn, h1, h2, ← hst3, h3]
        constructor
        · intro st2 hst2
          rw [hres] at hst2
          simp at hst2
        · rw [hres]
          exact hdr.2 _ _ h3
      | drainFail e =>
        have hres : fxn name metadata inports outports corePorts logic
            = Outcome.raised e s3 := by
          simp [fxn, h1, h2, ← hst3, h3]
        constructor
        · intro st2 hst2
          rw [hres] at hst2
          simp at hst2
        · rw [hres]
          exact hdr.2 _ _ h3
      | fuelOut =>
        have hres : fxn name metadata inports outports corePorts logic
            = Outcome.fuelOut s3 := by
          simp [fxn, h1, h2, ← hst3, h3]
        constructor
        · intro st2 hst2
          rw [hres] at hst2
          simp at hst2
        · rw [hres]
          exact hdr.2 _ _ h3
    | err e =>
      have hres : fxn name metadata inports outports corePorts logic
          = Outcome.raised e s2 := by
        simp [fxn, h1, h2]
      constructor
      · intro st2 hst2
        rw [hres] at hst2
        simp at hst2
      · rw [hres]
        exact hlog.2 _ _ h2
    | blocked =>
      have hres : fxn name metadata inports outports corePorts logic
          = Outcome.blockedRun s2 := by
        simp [fxn, h1, h2]
      constructor
      · intro st2 hst2
        rw [hres] at hst2
        simp at hst2
      · rw [hres]
        exact hlog.2 _ _ h2
  | err e =>
    have hres : fxn name metadata inports outports corePorts logic
        = Outcome.raised e s1 := by
      simp [fxn, h1]
    constructor
    · intro st2 hst2
      rw [hres] at hst2
      simp at hst2
    · rw [hres]
      exact hchk.2 _ _ h1
  | blocked =>
    have hres : fxn name metadata inports outports corePorts logic
        = Outcome.blockedRun s1 := by
      simp [fxn, h1]
    constructor
    · intro st2 hst2
      rw [hres] at hst2
      simp at hst2
    · rw [hres]
      exact hchk.2 _ _ h1

/-- Claim C4, counterexample.  The claim says every process run emits
exactly one ReceivedAllInputs event.  On the code, a run whose single input
port never delivers an IP (its connection closes empty) completes normally
with zero ReceivedAllInputs emissions: the received set never equals the set
of input port names, so checkInputs never fires. -/
theorem C4_counterexample :
    isCompleted (fxn pName [] [(inPortName, [eosConn []])]
      [(eventsKey, [openConn []])] [] []) = true
    ∧ raiCount (resultState (fxn pName [] [(inPortName, [eosConn []])]
        [(eventsKey, [openConn []])] [] [])) = 0 := by
  exact ⟨rfl, rfl⟩

/-- Claim C4, amended.  At most one ReceivedAllInputs event is recorded in
any process run.  The pre-invocation checkInputs emits one iff the input
port table is empty.  A run that completes normally has recorded exactly one
ReceivedAllInputs iff its final received set equals the full set of input
port names — equivalently, iff every input port delivered at least one IP at
some point (the event fires at that very getDataAt, since checkInputs runs
after every successful receive); a run whose inputs never all deliver
records zero. -/
theorem C4_amended (name : String) (metadata : List (String × PyVal))
    (inports outports corePorts : List (String × List Conn)) (logic : List LogicStep) :
    raiCount (resultState (fxn name metadata inports outports corePorts logic)) ≤ 1
    ∧ (0 < raiCount (checkInputs (initState name metadata inports outports corePorts)).2
        ↔ inports = [])
    ∧ (∀ st2, fxn name metadata inports outports corePorts logic = Outcome.completed st2 →
        (raiCount st2 = 1 ↔ eqSetB st2.received (akeys st2.inports) = true)) := by
  obtain ⟨hcomp, hbound⟩ := fxn_rai name metadata inports outports corePorts logic
  refine ⟨hbound, ?_, ?_⟩
  · by_cases hin : inports = []
    · subst hin
      have hrf := internalEvent_rfields raiKey
        (initState name metadata [] outports corePorts)
      rcases h1 : internalEvent raiKey (initState name metadata [] outports corePorts)
        with ⟨r, s0⟩
      rw [h1] at hrf
      have hrf2 : s0.emissions
          = (initState name metadata [] outports corePorts).emissions ++
            [⟨raiKey, (initState name metadata [] outports corePorts).phase,
              isEventBlockingOf raiKey (initState name metadata [] outports corePorts)⟩] :=
        hrf.1
      have hcnt : raiCount s0 = 1 := by
        rw [raiCount_eq, hrf2, raiCountE_append_rai]
        simp [initState, raiCountE]
      have hcond : (!(initState name metadata [] outports corePorts).hasAllInputs
          && eqSetB (initState name metadata [] outports corePorts).received
            (akeys (initState name metadata [] outports corePorts).inports)) = true := by
        rfl
      have hres : raiCount
          (checkInputs (initState name metadata [] outports corePorts)).2 = 1 := by
        cases r with
        | ok v =>
          simp only [checkInputs, hcond, if_pos, h1]
          exact hcnt
        | err e =>
          simp only [checkInputs, hcond, if_pos, h1]
          exact hcnt
        | blocked =>
          simp only [checkInputs, hcond, if_pos, h1]
          exact hcnt
      rw [hres]
      simp
    · have hfalse : eqSetB [] (akeys inports) = false := by
        rcases inports with _ | ⟨⟨k, conns⟩, tl⟩
        · exact absurd rfl hin
        · simp [eqSetB, akeys]
      have heq : checkInputs (initState name metadata inports outports corePorts)
          = (StepRes.ok PyVal.none, initState name metadata inports outports corePorts) := by
        simp [checkInputs, initState, hfalse]
      rw [heq]
      simp only [initState]
      constructor
      · intro hcnt
        simp [raiCount_eq, raiCountE] at hcnt
      · intro hcontra
        exact absurd hcontra hin
  · intro st2 hst2
    obtain ⟨⟨c1, c2, c3⟩, c4⟩ := hcomp st2 hst2
    constructor
    · intro hcnt
      rw [hcnt] at c1
      cases hha : st2.hasAllInputs
      · rw [hha] at c1
        simp at c1
      · exact c3 hha
    · intro hset
      rw [c1, c4 hset]
      rfl

/-- Witness for C4_amended: the bound instantiated at a run whose input
delivers one IP, together with the exact-one conclusion discharged at that
completed run. -/
theorem C4_witness :
    raiCount (resultState (fxn pName [] [(inPortName, [eosConn [PyVal.nat 5]])]
      [(eventsKey, [openConn []])] [] [])) ≤ 1
    ∧ raiCount (resultState (fxn pName [] [(inPortName, [eosConn [PyVal.nat 5]])]
        [(eventsKey, [openConn []])] [] [])) = 1 := by
  constructor
  · exact (C4_amended pName [] [(inPortName, [eosConn [PyVal.nat 5]])]
      [(eventsKey, [openConn []])] [] []).1
  · have hc : isCompleted (fxn pName [] [(inPortName, [eosConn [PyVal.nat 5]])]
        [(eventsKey, [openConn []])] [] []) = true := rfl
    rcases hx : fxn pName [] [(inPortName, [eosConn [PyVal.nat 5]])]
        [(eventsKey, [openConn []])] [] [] with st | ⟨e, st⟩ | st | st
    · have hiff := (C4_amended pName [] [(inPortName, [eosConn [PyVal.nat 5]])]
        [(eventsKey, [openConn []])] [] []).2.2 st hx
      have hst : st = resultState (fxn pName [] [(inPortName, [eosConn [PyVal.nat 5]])]
          [(eventsKey, [openConn []])] [] []) := by
        rw [hx]
        rfl
      have hone : raiCount st = 1 := by
        refine hiff.mpr ?_
        rw [hst]
        rfl
      exact hone
    · rw [hx] at hc
      simp [isCompleted] at hc
    · rw [hx] at hc
      simp [isCompleted] at hc
    · rw [hx] at hc
      simp [isCompleted] at hc

end SchedulerBase
